import Mathlib

/-!
Shallow embedding of the `emerge` ecosystem simulation core
(`src/src/sim/things.tsx` and `src/src/sim/Sim.tsx`).

Modelling conventions:
* JS object references are modelled by `ThingId` (a natural number); the JS
  heap is a function `ThingId → Thing`, and in-place mutation of a thing is a
  pointwise update of that function.  Fresh allocations take the next unused
  id (`nextId`).
* The `KdTreeMap` from `@thi.ng/geom-accel` (a map from `number[]` keys,
  compared by value, to arrays of things) is modelled as an association list
  `Store` with value-equal `Pos` keys; its iteration order is the list order,
  matching the "implementation-defined but deterministic for a given store"
  contract.
* JS numbers are modelled as `Int` (all the values the simulation produces
  are integers).
-/

/-- The closed enumeration of entity / resource types (`ThingType`). -/
inductive ThingType
  | Water
  | Seed
  | Root
  | Cloud
  | RainCloud
deriving DecidableEq, Fintype

/-- Grid position: an integer 2-vector (`pos: number[]` with dimension 2). -/
abbrev Pos := Int × Int

/-- A JS object reference to a thing. -/
abbrev ThingId := Nat

/-- A thing record (`Thing`): type, position and resource counts.
    `resources : ThingHas<number>` is a partial record; `none` models an
    absent key (`undefined`). -/
structure Thing where
  type : ThingType
  pos : Pos
  resources : ThingType → Option Int

instance : DecidableEq Thing := fun a b =>
  decidable_of_iff (a.type = b.type ∧ a.pos = b.pos ∧ a.resources = b.resources)
    (by cases a; cases b; simp)

/-- The spatial store: a map from grid position to the stack of things
    (by reference) at that exact cell. -/
abbrev Store := List (Pos × List ThingId)

/-- The keys currently present in the store. -/
def storeKeys (s : Store) : List Pos := s.map (·.1)

/-- `things.get(pos)`: point lookup by value-equal key. -/
def storeGet (p : Pos) (s : Store) : Option (List ThingId) :=
  (s.find? (fun e => decide (e.1 = p))).map (·.2)

/-- `things.set(pos, cell)`: replace the value at an existing key, else add
    the key. -/
def storeSet (p : Pos) (c : List ThingId) (s : Store) : Store :=
  if s.any (fun e => decide (e.1 = p)) then
    s.map (fun e => if e.1 = p then (p, c) else e)
  else s ++ [(p, c)]

/-- `things.remove(pos)`: delete a key (no-op when absent). -/
def storeRemoveKey (p : Pos) (s : Store) : Store :=
  s.filter (fun e => decide (e.1 ≠ p))

/-- All thing references currently in the store, cell by cell. -/
def storeIds (s : Store) : List ThingId := (s.map (·.2)).flatten

/-- The world (`SimState`): the current tick and the spatial store.  `heap`
    and `nextId` model the JS object heap backing the references. -/
structure SimState where
  tick : Int
  things : Store
  heap : ThingId → Thing
  nextId : ThingId

/-- `getRes`: read a resource count; an absent key reads as 0 (`?? 0`). -/
def getRes (t : Thing) (rt : ThingType) : Int := (t.resources rt).getD 0

/-- `mathRes`: add `v` to a resource count and store the result (this always
    writes the key, even when the result is 0). -/
def mathRes (t : Thing) (rt : ThingType) (v : Int) : Thing :=
  { t with resources := fun x => if x = rt then some (getRes t rt + v) else t.resources x }

/-- `addThing`: push onto the cell at the thing's own `pos`, creating the
    cell when absent. -/
def addThing (heap : ThingId → Thing) (id : ThingId) (s : Store) : Store :=
  match storeGet (heap id).pos s with
  | some c => storeSet (heap id).pos (c ++ [id]) s
  | none => storeSet (heap id).pos [id] s

/-- `removeThing`: drop every reference identical to `id`
    (`filter(x => x !== thing)`) from the cell at the thing's `pos`; delete
    the cell when it empties. -/
def removeThing (heap : ThingId → Thing) (id : ThingId) (s : Store) : Store :=
  let remaining := ((storeGet (heap id).pos s).getD []).filter (fun x => decide (x ≠ id))
  if remaining.isEmpty then storeRemoveKey (heap id).pos s
  else storeSet (heap id).pos remaining s

/-- In-place mutation of the record behind reference `id`. -/
def updateThing (w : SimState) (id : ThingId) (f : Thing → Thing) : SimState :=
  { w with heap := fun i => if i = id then f (w.heap i) else w.heap i }

/-- Allocate a fresh thing record (a JS object creation) and insert it via
    `addThing`. -/
def allocThing (t : Thing) (w : SimState) : SimState :=
  let heap1 := fun i => if i = w.nextId then t else w.heap i
  { w with heap := heap1, things := addThing heap1 w.nextId w.things, nextId := w.nextId + 1 }

/-- `water()`: type Water, empty resources. -/
def water (p : Pos) : Thing := ⟨ThingType.Water, p, fun _ => none⟩

/-- `root()`: type Root, empty resources. -/
def root (p : Pos) : Thing := ⟨ThingType.Root, p, fun _ => none⟩

/-- `seed()`: type Seed, resources `{Water: 0}`. -/
def seed (p : Pos) : Thing :=
  ⟨ThingType.Seed, p, fun rt => if rt = ThingType.Water then some 0 else none⟩

/-- `cloud()`: type Cloud.  The source sets a misspelled `resource` field, so
    the actual `resources` record stays the empty one from `baseThing`. -/
def cloud (p : Pos) : Thing := ⟨ThingType.Cloud, p, fun _ => none⟩

/-- Chebyshev cell distance (grid neighborhood). -/
def cheby (p q : Pos) : Nat := max (p.1 - q.1).natAbs (p.2 - q.2).natAbs

/-- Model of `state.things.queryValues(pos, DISTANCE, MAX_CELLS).flat()` with
    `DISTANCE = 2`, `MAX_CELLS = (DISTANCE - 1) * 9 = 9`: the cells within
    grid distance 2 of `pos`, at most 9 of them, in store order (the
    implementation-defined but deterministic per-store order). -/
def queryValuesFlat (s : Store) (p : Pos) : List ThingId :=
  (((s.filter (fun e => decide (cheby e.1 p ≤ 2))).take 9).map (·.2)).flatten

/-- `absorbWater`: find the first Water in the neighborhood query, remove it
    from the store and gain 1 Water.  The flattened query result is passed
    explicitly so that theorems can quantify over every result the spatial
    index could return. -/
def absorbWater (q : List ThingId) (self : ThingId) (w : SimState) : SimState :=
  match q.find? (fun id => decide ((w.heap id).type = ThingType.Water)) with
  | some wid =>
    let w1 := { w with things := removeThing w.heap wid w.things }
    updateThing w1 self (fun t => mathRes t ThingType.Water 1)
  | none => w

/-- `rootDown`: with more than 2 Water, grow a Root one cell below and pay
    2 Water. -/
def rootDown (self : ThingId) (w : SimState) : SimState :=
  if getRes (w.heap self) ThingType.Water > 2 then
    let p := (w.heap self).pos
    let w1 := allocThing (root (p.1, p.2 + 1)) w
    updateThing w1 self (fun t => mathRes t ThingType.Water (-2))
  else w

/-- `condenseWater`: every 3rd tick gain 5 Water; above 10 Water become a
    RainCloud. -/
def condenseWater (self : ThingId) (w : SimState) : SimState :=
  let w1 :=
    if w.tick % 3 = 0 then updateThing w self (fun t => mathRes t ThingType.Water 5) else w
  if getRes (w1.heap self) ThingType.Water > 10 then
    updateThing w1 self (fun t => { t with type := ThingType.RainCloud })
  else w1

/-- The `while (maxDrops > 0 && getRes(self, Water) > 0)` loop of `rain`,
    structurally recursive on the remaining drop budget. -/
def rainLoop (self : ThingId) : Nat → SimState → SimState
  | 0, w => w
  | n + 1, w =>
    if getRes (w.heap self) ThingType.Water > 0 then
      let w1 := allocThing (water (w.heap self).pos) w
      let w2 := updateThing w1 self (fun t => mathRes t ThingType.Water (-1))
      rainLoop self n w2
    else w

/-- `rain`: dispense up to 4 Water drops at the cloud's own position; the
    reversion check then reads the raw key
    (`self.resources[ThingType.Water] === 0`), not `getRes`. -/
def rain (self : ThingId) (w : SimState) : SimState :=
  let w1 := rainLoop self 4 w
  if (w1.heap self).resources ThingType.Water = some 0 then
    updateThing w1 self (fun t => { t with type := ThingType.Cloud })
  else w1

/-- `FixedControls` dispatch: run the control list registered for the
    thing's type, in registration order. -/
def runControls (self : ThingId) (w : SimState) : SimState :=
  match (w.heap self).type with
  | ThingType.Seed =>
    let w1 := absorbWater (queryValuesFlat w.things (w.heap self).pos) self w
    rootDown self w1
  | ThingType.Root => absorbWater (queryValuesFlat w.things (w.heap self).pos) self w
  | ThingType.Cloud => condenseWater self w
  | ThingType.RainCloud => rain self w
  | ThingType.Water => w

/-- Run the controls of each listed thing in order, mutations immediately
    visible to the later ones. -/
def runIds (ids : List ThingId) (w : SimState) : SimState :=
  ids.foldl (fun w id => runControls id w) w

/-- The per-cell loop of `advanceSim`, parametrized by the `fp.shuffle`
    outcome `sh` and the implementation-defined cell visit order.  Each cell's
    content is read (and shuffled) when the cell is reached.  The second
    component records which things had their controls invoked, in invocation
    order. -/
def processCells (sh : List ThingId → List ThingId) :
    List Pos → SimState → SimState × List ThingId
  | [], w => (w, [])
  | p :: ps, w =>
    match storeGet p w.things with
    | none => processCells sh ps w
    | some cell =>
      let perm := sh cell
      let w1 := runIds perm w
      let out := processCells sh ps w1
      (out.1, perm ++ out.2)

/-- `advanceSim`: bump the tick by `delta`, then run every cell's shuffled
    things. -/
def advanceSim (sh : List ThingId → List ThingId) (order : List Pos)
    (w : SimState) (delta : Int) : SimState × List ThingId :=
  processCells sh order { w with tick := w.tick + delta }

/-- Every outcome of one `advanceSim` call, over all per-cell permutation
    choices the `fp.shuffle` randomization can make (each equally likely for
    a uniform shuffle).  The permutations of a cell are enumerated with
    `List.permutations'`, whose membership is exactly the permutation
    relation (`List.mem_permutations'`). -/
def processCellsAll : List Pos → SimState → List SimState
  | [], w => [w]
  | p :: ps, w =>
    match storeGet p w.things with
    | none => processCellsAll ps w
    | some cell => cell.permutations'.flatMap (fun perm => processCellsAll ps (runIds perm w))

/-- `advanceSim` with the shuffle nondeterminism made explicit: the list of
    all reachable post-tick worlds. -/
def advanceSimAll (order : List Pos) (w : SimState) (delta : Int) : List SimState :=
  processCellsAll order { w with tick := w.tick + delta }

/-- JSON values (with integral numbers, which covers everything the snapshot
    format produces). -/
inductive Json
  | null
  | bool (b : Bool)
  | num (n : Int)
  | str (s : String)
  | arr (xs : List Json)
  | obj (fields : List (String × Json))

/-- The runtime string of each `ThingType` enum member. -/
def typeName : ThingType → String
  | ThingType.Water => "Water"
  | ThingType.Seed => "Seed"
  | ThingType.Root => "Root"
  | ThingType.Cloud => "Cloud"
  | ThingType.RainCloud => "RainCloud"

/-- Recover an enum member from its runtime string. -/
def typeOfName (s : String) : Option ThingType :=
  if s = "Water" then some ThingType.Water
  else if s = "Seed" then some ThingType.Seed
  else if s = "Root" then some ThingType.Root
  else if s = "Cloud" then some ThingType.Cloud
  else if s = "RainCloud" then some ThingType.RainCloud
  else none

/-- JS property lookup on a JSON object's field list (first match). -/
def jLookup (fs : List (String × Json)) (k : String) : Option Json :=
  (fs.find? (fun e => decide (e.1 = k))).map (·.2)

/-- The enum members in declaration order. -/
def allTypes : List ThingType :=
  [ThingType.Water, ThingType.Seed, ThingType.Root, ThingType.Cloud, ThingType.RainCloud]

/-- JSON encoding of a resources record: one field per present key. -/
def resourcesToJson (r : ThingType → Option Int) : Json :=
  Json.obj (allTypes.filterMap (fun rt => (r rt).map (fun v => (typeName rt, Json.num v))))

/-- JSON encoding of a thing record. -/
def thingToJson (t : Thing) : Json :=
  Json.obj [("type", Json.str (typeName t.type)),
    ("pos", Json.arr [Json.num t.pos.1, Json.num t.pos.2]),
    ("resources", resourcesToJson t.resources)]

/-- `serializeState`: `JSON.stringify({...state, things: [...state.things]})`,
    modelled up to the (faithful) text encoding as the JSON tree itself. -/
def serializeState (w : SimState) : Json :=
  Json.obj [("tick", Json.num w.tick),
    ("things", Json.arr (w.things.map (fun e =>
      Json.arr [Json.arr [Json.num e.1.1, Json.num e.1.2],
        Json.arr (e.2.map (fun id => thingToJson (w.heap id)))])))]

/-- Decode a resources record: each enum-named numeric field becomes a
    present key; everything else reads back as absent. -/
def resourcesOfJson : Json → Option (ThingType → Option Int)
  | Json.obj fs => some (fun rt =>
      match jLookup fs (typeName rt) with
      | some (Json.num v) => some v
      | _ => none)
  | _ => none

/-- Decode a 2-element numeric position. -/
def posOfJson : Json → Option Pos
  | Json.arr [Json.num a, Json.num b] => some (a, b)
  | _ => none

/-- Decode a thing record. -/
def thingOfJson : Json → Option Thing
  | Json.obj fs =>
    match jLookup fs "type", jLookup fs "pos", jLookup fs "resources" with
    | some (Json.str ty), some pj, some rj =>
      match typeOfName ty, posOfJson pj, resourcesOfJson rj with
      | some t, some p, some r => some ⟨t, p, r⟩
      | _, _, _ => none
    | _, _, _ => none
  | _ => none

/-- Decode one `[position, things]` entry. -/
def entryOfJson : Json → Option (Pos × List Thing)
  | Json.arr [pj, tj] =>
    match posOfJson pj, tj with
    | some p, Json.arr ts => (ts.mapM thingOfJson).map (fun c => (p, c))
    | _, _ => none
  | _ => none

/-- Assign fresh consecutive ids to the decoded records, cell by cell
    (each parsed record is a fresh JS object). -/
def numberEntries (n : ThingId) : List (Pos × List Thing) → List (Pos × List ThingId)
  | [] => []
  | (p, c) :: rest =>
    (p, (List.range c.length).map (fun j => n + j)) :: numberEntries (n + c.length) rest

/-- `new KdTreeMap(2, pairs)`: set every pair in order. -/
def buildStore (entries : List (Pos × List ThingId)) : Store :=
  entries.foldl (fun s e => storeSet e.1 e.2 s) []

/-- What `deserializeState` actually returns: the `tick` field is copied
    through *unchecked* (`none` models `undefined`). -/
structure RawSim where
  rawTick : Option Json
  things : Store
  heap : ThingId → Thing

/-- `deserializeState`: `JSON.parse` followed by the unchecked casts
    `intermediate.things as [number[], Thing[]][]` and
    `intermediate.tick as number` — no field validation happens.  `none`
    models a thrown `TypeError` (property access on `null`, or a
    non-iterable `things` value).  A missing `things` key gives
    `new KdTreeMap(2, undefined)`, i.e. an empty store; a parsed number,
    string, boolean or array likewise has both properties `undefined`.
    Snapshot entries are modelled for well-formed shapes; shapes the JS
    would keep as silent garbage (non-enum type strings, wrong-arity
    positions) are mapped to `none` here, so this model over-rejects
    relative to the source and acceptance results below are conservative. -/
def deserializeState (j : Json) : Option RawSim :=
  match j with
  | Json.null => none
  | Json.obj fs =>
    match jLookup fs "things" with
    | none => some ⟨jLookup fs "tick", [], fun _ => water (0, 0)⟩
    | some (Json.arr es) =>
      (es.mapM entryOfJson).map (fun entries =>
        let flat := (entries.map (·.2)).flatten
        ⟨jLookup fs "tick", buildStore (numberEntries 0 entries),
          fun i => flat.getD i (water (0, 0))⟩)
    | some _ => none
  | _ => some ⟨none, [], fun _ => water (0, 0)⟩

/-- The multiset of (type, position, resources) records held in a store. -/
def storeRecords (s : Store) (heap : ThingId → Thing) : Multiset Thing :=
  ↑((storeIds s).map heap)

/-- Store well-formedness: value-distinct keys, no empty cells, and every
    thing indexed under its current `pos`. -/
def StoreWF (heap : ThingId → Thing) (s : Store) : Prop :=
  (storeKeys s).Nodup ∧ (∀ e ∈ s, e.2 ≠ []) ∧ (∀ e ∈ s, ∀ id ∈ e.2, (heap id).pos = e.1)

/-- A store operation: each thing is inserted under its own `pos` field. -/
inductive StoreOp
  | add (id : ThingId)
  | remove (id : ThingId)

/-- Apply a sequence of `addThing`/`removeThing` operations. -/
def applyOps (heap : ThingId → Thing) (ops : List StoreOp) (s : Store) : Store :=
  ops.foldl (fun s op =>
    match op with
    | StoreOp.add id => addThing heap id s
    | StoreOp.remove id => removeThing heap id s) s

/-- Total Water in a world: Water-type entities in the store plus Water
    resource units held by entities in the store. -/
def totalWater (w : SimState) : Int :=
  ((storeIds w.things).map (fun id =>
    (if (w.heap id).type = ThingType.Water then (1 : Int) else 0)
      + getRes (w.heap id) ThingType.Water)).sum

/-- All resource counts of all records on the heap are non-negative. -/
def NonNegWorld (w : SimState) : Prop :=
  ∀ id rt v, (w.heap id).resources rt = some v → 0 ≤ v

/-! ### Store lemmas -/

theorem addThing_eq_some {heap : ThingId → Thing} {id : ThingId} {s : Store}
    {c : List ThingId} (hget : storeGet (heap id).pos s = some c) :
    addThing heap id s = storeSet (heap id).pos (c ++ [id]) s := by
  unfold addThing
  rw [hget]

theorem addThing_eq_none {heap : ThingId → Thing} {id : ThingId} {s : Store}
    (hget : storeGet (heap id).pos s = none) :
    addThing heap id s = storeSet (heap id).pos [id] s := by
  unfold addThing
  rw [hget]

theorem removeThing_eq_empty {heap : ThingId → Thing} {id : ThingId} {s : Store}
    (h : (((storeGet (heap id).pos s).getD []).filter (fun x => decide (x ≠ id))).isEmpty) :
    removeThing heap id s = storeRemoveKey (heap id).pos s := by
  unfold removeThing
  rw [if_pos h]

theorem removeThing_eq_set {heap : ThingId → Thing} {id : ThingId} {s : Store}
    (h : ¬(((storeGet (heap id).pos s).getD []).filter (fun x => decide (x ≠ id))).isEmpty) :
    removeThing heap id s =
      storeSet (heap id).pos
        (((storeGet (heap id).pos s).getD []).filter (fun x => decide (x ≠ id))) s := by
  unfold removeThing
  rw [if_neg h]

theorem storeGet_mem {p : Pos} {c : List ThingId} {s : Store}
    (h : storeGet p s = some c) : (p, c) ∈ s := by
  unfold storeGet at h
  cases hf : s.find? (fun e => decide (e.1 = p)) with
  | none => simp [hf] at h
  | some e =>
    have hm := List.mem_of_find?_eq_some hf
    have hp := List.find?_some hf
    simp at hp
    simp [hf] at h
    have he : e = (p, c) := by
      cases e
      simp_all
    rwa [he] at hm

theorem storeGet_eq_none {p : Pos} {s : Store}
    (h : storeGet p s = none) : ∀ e ∈ s, e.1 ≠ p := by
  unfold storeGet at h
  cases hf : s.find? (fun e => decide (e.1 = p)) with
  | none =>
    intro e he
    have := List.find?_eq_none.mp hf e he
    simpa using this
  | some e => simp [hf] at h

theorem storeGet_of_decomp {p : Pos} {c : List ThingId} (l r : Store)
    (hl : ∀ e ∈ l, e.1 ≠ p) : storeGet p (l ++ (p, c) :: r) = some c := by
  induction l with
  | nil => simp [storeGet]
  | cons e t ih =>
    have he : e.1 ≠ p := hl e (by simp)
    have ht : ∀ x ∈ t, x.1 ≠ p := fun x hx => hl x (by simp [hx])
    simpa [storeGet, List.find?, he] using ih ht

theorem key_inj {s : Store} (hnd : (storeKeys s).Nodup) :
    ∀ e ∈ s, ∀ eB ∈ s, e.1 = eB.1 → e = eB := by
  induction s with
  | nil => simp
  | cons a t ih =>
    simp only [storeKeys, List.map_cons, List.nodup_cons] at hnd
    intro e he eB heB hk
    rcases List.mem_cons.mp he with rfl | he' <;>
      rcases List.mem_cons.mp heB with rfl | heB'
    · rfl
    · exfalso
      apply hnd.1
      rw [hk]
      exact List.mem_map.mpr ⟨eB, heB', rfl⟩
    · exfalso
      apply hnd.1
      rw [← hk]
      exact List.mem_map.mpr ⟨e, he', rfl⟩
    · exact ih hnd.2 e he' eB heB' hk

theorem map_keep_of_ne {p : Pos} {c' : List ThingId} {l : Store}
    (h : ∀ e ∈ l, e.1 ≠ p) :
    l.map (fun e => if e.1 = p then (p, c') else e) = l := by
  induction l with
  | nil => rfl
  | cons a t ih =>
    have ha := h a (by simp)
    simp only [List.map_cons, if_neg ha]
    rw [ih (fun e he => h e (by simp [he]))]

/-- Decomposition of a store with value-distinct keys around one of its
    entries, together with how `storeSet` rewrites that entry. -/
theorem storeSet_decomp {p : Pos} {c : List ThingId} {s : Store}
    (hnd : (storeKeys s).Nodup) (hmem : (p, c) ∈ s) :
    ∃ l r, s = l ++ (p, c) :: r ∧ (∀ e ∈ l, e.1 ≠ p) ∧ (∀ e ∈ r, e.1 ≠ p) ∧
      ∀ c', storeSet p c' s = l ++ (p, c') :: r := by
  obtain ⟨l, r, rfl⟩ := List.append_of_mem hmem
  have hkeys : storeKeys (l ++ (p, c) :: r) = storeKeys l ++ p :: storeKeys r := by
    simp [storeKeys]
  rw [hkeys, List.nodup_append] at hnd
  obtain ⟨hndl, hndr, hdisj⟩ := hnd
  have hpl : p ∉ storeKeys l := fun hp => hdisj hp (by simp)
  have hpr : p ∉ storeKeys r := (List.nodup_cons.mp hndr).1
  have hl : ∀ e ∈ l, e.1 ≠ p := by
    intro e he heq
    exact hpl (heq ▸ List.mem_map.mpr ⟨e, he, rfl⟩)
  have hr : ∀ e ∈ r, e.1 ≠ p := by
    intro e he heq
    exact hpr (heq ▸ List.mem_map.mpr ⟨e, he, rfl⟩)
  refine ⟨l, r, rfl, hl, hr, ?_⟩
  intro c'
  have hany : (l ++ (p, c) :: r).any (fun e => decide (e.1 = p)) = true :=
    List.any_eq_true.mpr ⟨(p, c), by simp, by simp⟩
  unfold storeSet
  rw [if_pos hany, List.map_append, List.map_cons]
  rw [map_keep_of_ne hl, map_keep_of_ne hr]
  simp

theorem storeSet_append_of_none {p : Pos} {c : List ThingId} {s : Store}
    (h : storeGet p s = none) : storeSet p c s = s ++ [(p, c)] := by
  have hall := storeGet_eq_none h
  unfold storeSet
  rw [if_neg]
  simp only [List.any_eq_true, not_exists]
  intro e hcon
  rcases hcon with ⟨he, hdec⟩
  exact hall e he (by simpa using hdec)

theorem storeIds_append (l r : Store) :
    storeIds (l ++ r) = storeIds l ++ storeIds r := by
  simp [storeIds]

/-! ### Store well-formedness preservation -/

theorem addThing_wf {heap : ThingId → Thing} {id : ThingId} {s : Store}
    (h : StoreWF heap s) : StoreWF heap (addThing heap id s) := by
  obtain ⟨hnd, hne, hpos⟩ := h
  cases hget : storeGet (heap id).pos s with
  | some c =>
    obtain ⟨l, r, hs, hl, hr, hset⟩ := storeSet_decomp hnd (storeGet_mem hget)
    rw [addThing_eq_some hget, hset]
    have hkeq : storeKeys (l ++ ((heap id).pos, c ++ [id]) :: r) = storeKeys s := by
      rw [hs]
      simp [storeKeys]
    refine ⟨hkeq ▸ hnd, ?_, ?_⟩
    · intro e he
      rcases List.mem_append.mp he with hel | hec
      · exact hne e (by rw [hs]; simp [hel])
      · rcases List.mem_cons.mp hec with rfl | her
        · simp
        · exact hne e (by rw [hs]; simp [her])
    · intro e he i hi
      rcases List.mem_append.mp he with hel | hec
      · exact hpos e (by rw [hs]; simp [hel]) i hi
      · rcases List.mem_cons.mp hec with rfl | her
        · simp only at hi
          rcases List.mem_append.mp hi with hic | hii
          · exact hpos ((heap id).pos, c) (by rw [hs]; simp) i hic
          · simp at hii
            simp [hii]
        · exact hpos e (by rw [hs]; simp [her]) i hi
  | none =>
    rw [addThing_eq_none hget, storeSet_append_of_none hget]
    have hall := storeGet_eq_none hget
    refine ⟨?_, ?_, ?_⟩
    · unfold storeKeys
      rw [List.map_append]
      refine List.Nodup.append hnd (by simp) ?_
      intro x hx hy
      simp only [List.map_cons, List.map_nil, List.mem_singleton] at hy
      subst hy
      obtain ⟨e, he, hek⟩ := List.mem_map.mp hx
      exact hall e he hek
    · intro e he
      rcases List.mem_append.mp he with hel | hee
      · exact hne e hel
      · simp at hee
        simp [hee]
    · intro e he i hi
      rcases List.mem_append.mp he with hel | hee
      · exact hpos e hel i hi
      · simp at hee
        subst hee
        simp at hi
        simp [hi]

theorem removeThing_wf {heap : ThingId → Thing} {id : ThingId} {s : Store}
    (h : StoreWF heap s) : StoreWF heap (removeThing heap id s) := by
  obtain ⟨hnd, hne, hpos⟩ := h
  by_cases hemp : (((storeGet (heap id).pos s).getD []).filter (fun x => decide (x ≠ id))).isEmpty
  · rw [removeThing_eq_empty hemp]
    unfold storeRemoveKey
    refine ⟨?_, ?_, ?_⟩
    · show ((s.filter (fun e => decide (e.1 ≠ (heap id).pos))).map (fun x => x.1)).Nodup
      exact List.Nodup.sublist ((List.filter_sublist s).map (fun x => x.1)) hnd
    · intro e he
      exact hne e (List.mem_of_mem_filter he)
    · intro e he
      exact hpos e (List.mem_of_mem_filter he)
  · rw [removeThing_eq_set hemp]
    cases hget : storeGet (heap id).pos s with
    | none =>
      rw [hget] at hemp
      simp at hemp
    | some c =>
      rw [hget] at hemp
      simp only [Option.getD_some] at hemp ⊢
      obtain ⟨l, r, hs, hl, hr, hset⟩ := storeSet_decomp hnd (storeGet_mem hget)
      rw [hset]
      have hkeq :
          storeKeys (l ++ ((heap id).pos, c.filter (fun x => decide (x ≠ id))) :: r) =
            storeKeys s := by
        rw [hs]
        simp [storeKeys]
      refine ⟨hkeq ▸ hnd, ?_, ?_⟩
      · intro e he
        rcases List.mem_append.mp he with hel | hec
        · exact hne e (by rw [hs]; simp [hel])
        · rcases List.mem_cons.mp hec with rfl | her
          · simpa [List.isEmpty_iff] using hemp
          · exact hne e (by rw [hs]; simp [her])
      · intro e he i hi
        rcases List.mem_append.mp he with hel | hec
        · exact hpos e (by rw [hs]; simp [hel]) i hi
        · rcases List.mem_cons.mp hec with rfl | her
          · simp only at hi
            exact hpos ((heap id).pos, c) (by rw [hs]; simp) i (List.mem_of_mem_filter hi)
          · exact hpos e (by rw [hs]; simp [her]) i hi

theorem applyOps_wf (heap : ThingId → Thing) (ops : List StoreOp) (s : Store)
    (h : StoreWF heap s) : StoreWF heap (applyOps heap ops s) := by
  induction ops generalizing s with
  | nil => exact h
  | cons op rest ih =>
    cases op with
    | add id => exact ih _ (addThing_wf h)
    | remove id => exact ih _ (removeThing_wf h)

theorem storeGet_of_wf_mem {s : Store} {p : Pos}
    {c : List ThingId} (hnd : (storeKeys s).Nodup) (hmem : (p, c) ∈ s) :
    storeGet p s = some c := by
  obtain ⟨l, r, hs, hl, _, _⟩ := storeSet_decomp hnd hmem
  rw [hs]
  exact storeGet_of_decomp l r hl

/-- C1: for every sequence of `addThing`/`removeThing` operations starting
    from an empty store (each thing inserted under its own `pos` field),
    every thing present in the store is found by exactly one cell lookup at
    its current position (the point lookup at its `pos` returns its cell, and
    no other cell contains it), and no cell key maps to an empty sequence. -/
theorem C1_store_consistency (heap : ThingId → Thing) (ops : List StoreOp) :
    (∀ e ∈ applyOps heap ops [], e.2 ≠ []) ∧
    (∀ e ∈ applyOps heap ops [], ∀ id ∈ e.2,
      (heap id).pos = e.1 ∧ storeGet (heap id).pos (applyOps heap ops []) = some e.2) ∧
    (∀ e ∈ applyOps heap ops [], ∀ eB ∈ applyOps heap ops [],
      ∀ id, id ∈ e.2 → id ∈ eB.2 → e = eB) := by
  have hwf := applyOps_wf heap ops [] ⟨by simp [storeKeys], by simp, by simp⟩
  obtain ⟨hnd, hne, hpos⟩ := hwf
  refine ⟨hne, ?_, ?_⟩
  · intro e he id hid
    have hp := hpos e he id hid
    refine ⟨hp, ?_⟩
    rw [hp]
    have hmem : ((e.1 : Pos), e.2) ∈ applyOps heap ops [] := by
      cases e
      exact he
    exact storeGet_of_wf_mem hnd hmem
  · intro e he eB heB id hide hidB
    have h1 := hpos e he id hide
    have h2 := hpos eB heB id hidB
    exact key_inj hnd e he eB heB (h1.symm.trans h2)

/-! ### How the operations change the flattened content of the store -/

theorem storeIds_middle (l r : Store) (p : Pos) (c : List ThingId) :
    storeIds (l ++ (p, c) :: r) = storeIds l ++ (c ++ storeIds r) := by
  simp [storeIds]

theorem storeRemoveKey_decomp {l r : Store} {p : Pos} {c : List ThingId}
    (hl : ∀ e ∈ l, e.1 ≠ p) (hr : ∀ e ∈ r, e.1 ≠ p) :
    storeRemoveKey p (l ++ (p, c) :: r) = l ++ r := by
  unfold storeRemoveKey
  rw [List.filter_append, List.filter_cons]
  have hc : (decide ((p, c).1 ≠ p)) = false := by simp
  rw [hc]
  simp only [Bool.false_eq_true, if_false]
  rw [List.filter_eq_self.mpr (fun e he => by simpa using hl e he),
    List.filter_eq_self.mpr (fun e he => by simpa using hr e he)]

theorem addThing_keysNodup {heap : ThingId → Thing} {id : ThingId} {s : Store}
    (hnd : (storeKeys s).Nodup) : (storeKeys (addThing heap id s)).Nodup := by
  cases hget : storeGet (heap id).pos s with
  | some c =>
    obtain ⟨l, r, hs, hl, hr, hset⟩ := storeSet_decomp hnd (storeGet_mem hget)
    rw [addThing_eq_some hget, hset (c ++ [id])]
    have hkeq : storeKeys (l ++ ((heap id).pos, c ++ [id]) :: r) = storeKeys s := by
      rw [hs]
      simp [storeKeys]
    rw [hkeq]
    exact hnd
  | none =>
    rw [addThing_eq_none hget, storeSet_append_of_none hget]
    have hall := storeGet_eq_none hget
    unfold storeKeys
    rw [List.map_append]
    refine List.Nodup.append hnd (by simp) ?_
    intro x hx hy
    simp only [List.map_cons, List.map_nil, List.mem_singleton] at hy
    subst hy
    obtain ⟨e, he, hek⟩ := List.mem_map.mp hx
    exact hall e he hek

/-- `addThing` puts `id` into the store and moves nothing else: the flattened
    content is a permutation of `id` consed onto the old one. -/
theorem storeIds_addThing (heap : ThingId → Thing) (id : ThingId) (s : Store)
    (hnd : (storeKeys s).Nodup) :
    List.Perm (storeIds (addThing heap id s)) (id :: storeIds s) := by
  cases hget : storeGet (heap id).pos s with
  | some c =>
    obtain ⟨l, r, hs, hl, hr, hset⟩ := storeSet_decomp hnd (storeGet_mem hget)
    rw [addThing_eq_some hget, hset (c ++ [id]), storeIds_middle, hs, storeIds_middle]
    have hshape : storeIds l ++ (c ++ [id] ++ storeIds r) =
        (storeIds l ++ c) ++ id :: storeIds r := by simp
    rw [hshape]
    refine List.perm_middle.trans ?_
    simp
  | none =>
    rw [addThing_eq_none hget, storeSet_append_of_none hget, storeIds_append]
    have hshape : storeIds s ++ storeIds [((heap id).pos, [id])] =
        storeIds s ++ id :: [] := by simp [storeIds]
    rw [hshape]
    exact List.perm_append_comm

/-- `removeThing` deletes exactly the one occurrence of `id` (given a
    well-formed store with duplicate-free content containing `id`). -/
theorem storeIds_removeThing (heap : ThingId → Thing) (id : ThingId) (s : Store)
    (hwf : StoreWF heap s) (hnodup : (storeIds s).Nodup) (hmem : id ∈ storeIds s) :
    storeIds (removeThing heap id s) = (storeIds s).erase id := by
  obtain ⟨hnd, hne, hpos⟩ := hwf
  have hmem' : id ∈ (s.map (·.2)).flatten := hmem
  obtain ⟨cl, hcl, hidc⟩ := List.mem_flatten.mp hmem'
  obtain ⟨e, he, hecl⟩ := List.mem_map.mp hcl
  subst hecl
  have hp : (heap id).pos = e.1 := hpos e he id hidc
  have hee : ((e.1 : Pos), e.2) ∈ s := by
    cases e
    exact he
  have hget : storeGet (heap id).pos s = some e.2 := by
    rw [hp]
    exact storeGet_of_wf_mem hnd hee
  obtain ⟨l, r, hs, hl, hr, hset⟩ := storeSet_decomp hnd (by rw [← hp] at hee; exact hee)
  have hids : storeIds s = storeIds l ++ (e.2 ++ storeIds r) := by
    rw [hs, storeIds_middle]
  have hnn : ((storeIds l ++ (e.2 ++ storeIds r)) : List ThingId).Nodup := hids ▸ hnodup
  rw [List.nodup_append] at hnn
  obtain ⟨hnl, hnn2, hdis1⟩ := hnn
  rw [List.nodup_append] at hnn2
  obtain ⟨hnc, hnr, hdis2⟩ := hnn2
  have hidl : id ∉ storeIds l := fun hx => hdis1 hx (by simp [hidc])
  have herase : (storeIds s).erase id = storeIds l ++ (e.2.erase id ++ storeIds r) := by
    rw [hids, List.erase_append_right _ hidl, List.erase_append_left _ hidc]
  have hfilter : e.2.filter (fun x => decide (x ≠ id)) = e.2.erase id := by
    rw [List.Nodup.erase_eq_filter hnc id]
    refine List.filter_congr ?_
    intro x hx
    by_cases hxi : x = id <;> simp [hxi]
  by_cases hemp : ((e.2.filter (fun x => decide (x ≠ id))) : List ThingId).isEmpty
  · have hc1 : e.2 = [id] := by
      have hall : ∀ x ∈ e.2, x = id := by
        intro x hx
        by_contra hne'
        have : x ∈ e.2.filter (fun x => decide (x ≠ id)) :=
          List.mem_filter.mpr ⟨hx, by simpa using hne'⟩
        rw [List.isEmpty_iff.mp hemp] at this
        simp at this
      cases hcc : e.2 with
      | nil => rw [hcc] at hidc; simp at hidc
      | cons a t =>
        have ha : a = id := hall a (by simp [hcc])
        have ht : t = [] := by
          cases htt : t with
          | nil => rfl
          | cons b u =>
            have hb : b = id := hall b (by simp [hcc, htt])
            rw [hcc, htt] at hnc
            simp [ha, hb] at hnc
        rw [ha, ht]
    have hemp' :
        (((storeGet (heap id).pos s).getD []).filter (fun x => decide (x ≠ id))).isEmpty := by
      rw [hget]
      simpa using hemp
    have hrem : removeThing heap id s = l ++ r := by
      rw [removeThing_eq_empty hemp', hs, storeRemoveKey_decomp hl hr]
    rw [hrem, storeIds_append, herase, hc1]
    simp
  · have hemp' :
        ¬(((storeGet (heap id).pos s).getD []).filter (fun x => decide (x ≠ id))).isEmpty := by
      rw [hget]
      simpa using hemp
    have hrem : removeThing heap id s = l ++ ((heap id).pos, e.2.erase id) :: r := by
      rw [removeThing_eq_set hemp', hget]
      simp only [Option.getD_some]
      rw [hfilter]
      exact hset _
    rw [hrem, storeIds_middle, herase]

/-! ### Record-level lemmas for the heap operations -/

@[simp] theorem updateThing_heap_self (w : SimState) (id : ThingId) (f : Thing → Thing) :
    (updateThing w id f).heap id = f (w.heap id) := by
  simp [updateThing]

theorem updateThing_heap_ne {i id : ThingId} (h : i ≠ id) (w : SimState) (f : Thing → Thing) :
    (updateThing w id f).heap i = w.heap i := by
  simp [updateThing, h]

@[simp] theorem updateThing_things (w : SimState) (id : ThingId) (f : Thing → Thing) :
    (updateThing w id f).things = w.things := rfl

@[simp] theorem updateThing_tick (w : SimState) (id : ThingId) (f : Thing → Thing) :
    (updateThing w id f).tick = w.tick := rfl

@[simp] theorem updateThing_nextId (w : SimState) (id : ThingId) (f : Thing → Thing) :
    (updateThing w id f).nextId = w.nextId := rfl

@[simp] theorem mathRes_type (t : Thing) (rt : ThingType) (v : Int) :
    (mathRes t rt v).type = t.type := rfl

@[simp] theorem mathRes_pos (t : Thing) (rt : ThingType) (v : Int) :
    (mathRes t rt v).pos = t.pos := rfl

@[simp] theorem mathRes_res_same (t : Thing) (rt : ThingType) (v : Int) :
    (mathRes t rt v).resources rt = some (getRes t rt + v) := by
  simp [mathRes]

theorem mathRes_res_ne {x rt : ThingType} (h : x ≠ rt) (t : Thing) (v : Int) :
    (mathRes t rt v).resources x = t.resources x := by
  simp [mathRes, h]

@[simp] theorem mathRes_getRes_same (t : Thing) (rt : ThingType) (v : Int) :
    getRes (mathRes t rt v) rt = getRes t rt + v := by
  simp [getRes]

@[simp] theorem allocThing_heap_new (t : Thing) (w : SimState) :
    (allocThing t w).heap w.nextId = t := by
  simp [allocThing]

theorem allocThing_heap_ne {i : ThingId} {w : SimState} (h : i ≠ w.nextId) (t : Thing) :
    (allocThing t w).heap i = w.heap i := by
  simp [allocThing, h]

@[simp] theorem allocThing_nextId (t : Thing) (w : SimState) :
    (allocThing t w).nextId = w.nextId + 1 := rfl

@[simp] theorem allocThing_tick (t : Thing) (w : SimState) :
    (allocThing t w).tick = w.tick := rfl

theorem allocThing_things (t : Thing) (w : SimState) :
    (allocThing t w).things =
      addThing (fun i => if i = w.nextId then t else w.heap i) w.nextId w.things := rfl

theorem absorbWater_eq_some {q : List ThingId} {self wid : ThingId} {w : SimState}
    (hfind : q.find? (fun id => decide ((w.heap id).type = ThingType.Water)) = some wid) :
    absorbWater q self w =
      updateThing { w with things := removeThing w.heap wid w.things } self
        (fun t => mathRes t ThingType.Water 1) := by
  unfold absorbWater
  rw [hfind]

theorem absorbWater_eq_none {q : List ThingId} {self : ThingId} {w : SimState}
    (hfind : q.find? (fun id => decide ((w.heap id).type = ThingType.Water)) = none) :
    absorbWater q self w = w := by
  unfold absorbWater
  rw [hfind]

theorem sum_map_add_ite (L : List ThingId) (f : ThingId → Int) (self : ThingId) :
    (L.map (fun i => f i + (if i = self then (1 : Int) else 0))).sum
      = (L.map f).sum + (L.count self : Int) := by
  induction L with
  | nil => simp
  | cons a t ih =>
    simp only [List.map_cons, List.sum_cons, ih, List.count_cons]
    by_cases ha : a = self
    · subst ha
      simp
      ring
    · have : ¬(self = a) := fun hc => ha hc.symm
      simp [ha, this]
      ring

/-- C5: one `absorbWater` invocation never increases the total Water count
    (Water-type entities in the store plus Water resource units held).  When
    the query finds a Water thing it removes exactly that one thing from the
    store and adds exactly 1 to the acting thing's Water resource, touching
    no other record; when it finds none, the world is unchanged. -/
theorem C5_absorb_conservation (w : SimState) (q : List ThingId) (self : ThingId)
    (hwf : StoreWF w.heap w.things)
    (hnodup : (storeIds w.things).Nodup)
    (hq : ∀ id ∈ q, id ∈ storeIds w.things)
    (hself : (w.heap self).type ≠ ThingType.Water)
    (hnn : ∀ id ∈ storeIds w.things, 0 ≤ getRes (w.heap id) ThingType.Water) :
    totalWater (absorbWater q self w) ≤ totalWater w ∧
    (∀ wid, q.find? (fun id => decide ((w.heap id).type = ThingType.Water)) = some wid →
      storeIds (absorbWater q self w).things = (storeIds w.things).erase wid ∧
      getRes ((absorbWater q self w).heap self) ThingType.Water
        = getRes (w.heap self) ThingType.Water + 1 ∧
      (∀ i, i ≠ self → (absorbWater q self w).heap i = w.heap i)) ∧
    (q.find? (fun id => decide ((w.heap id).type = ThingType.Water)) = none →
      absorbWater q self w = w) := by
  cases hfind : q.find? (fun id => decide ((w.heap id).type = ThingType.Water)) with
  | none =>
    rw [absorbWater_eq_none hfind]
    exact ⟨le_refl _, fun wid hw => by simp at hw, fun _ => rfl⟩
  | some wid =>
    have hwid_q : wid ∈ q := List.mem_of_find?_eq_some hfind
    have hwid_w : (w.heap wid).type = ThingType.Water := by
      have := List.find?_some hfind
      simpa using this
    have hwid_s : wid ∈ storeIds w.things := hq wid hwid_q
    have hwneq : wid ≠ self := fun hc => hself (hc ▸ hwid_w)
    have hsneq : self ≠ wid := fun hc => hwneq hc.symm
    have hrem : storeIds (removeThing w.heap wid w.things) = (storeIds w.things).erase wid :=
      storeIds_removeThing w.heap wid w.things hwf hnodup hwid_s
    rw [absorbWater_eq_some hfind]
    have hheap_self :
        (updateThing { w with things := removeThing w.heap wid w.things } self
          (fun t => mathRes t ThingType.Water 1)).heap self = mathRes (w.heap self) ThingType.Water 1 := by
      simp
    have hheap_ne : ∀ i, i ≠ self →
        (updateThing { w with things := removeThing w.heap wid w.things } self
          (fun t => mathRes t ThingType.Water 1)).heap i = w.heap i := by
      intro i hi
      rw [updateThing_heap_ne hi]
    refine ⟨?_, fun wid' hw' => ?_, fun hc => by simp at hc⟩
    · -- the conservation inequality
      set E := (storeIds w.things).erase wid with hE
      have hperm : List.Perm (storeIds w.things) (wid :: E) := List.perm_cons_erase hwid_s
      set f : ThingId → Int := fun id =>
        (if (w.heap id).type = ThingType.Water then (1 : Int) else 0)
          + getRes (w.heap id) ThingType.Water with hf
      have hts :
          (updateThing { w with things := removeThing w.heap wid w.things } self
            (fun t => mathRes t ThingType.Water 1)).things = removeThing w.heap wid w.things := rfl
      have htot' : totalWater (updateThing { w with things := removeThing w.heap wid w.things }
            self (fun t => mathRes t ThingType.Water 1))
          = (E.map (fun i => f i + (if i = self then (1 : Int) else 0))).sum := by
        unfold totalWater
        rw [hts, hrem]
        refine congrArg List.sum (List.map_congr_left ?_)
        intro i hiE
        by_cases hi : i = self
        · subst hi
          rw [hheap_self]
          simp [hf]
          ring
        · rw [hheap_ne i hi]
          simp [hf, hi]
      have htot : totalWater w = f wid + (E.map f).sum := by
        unfold totalWater
        have := (hperm.map f).sum_eq
        rw [← hf]
        rw [this]
        simp
      have hcnt : E.count self ≤ 1 := by
        have hEnodup : E.Nodup := List.Nodup.erase wid hnodup
        exact List.nodup_iff_count_le_one.mp hEnodup self
      have hfwid : f wid = 1 + getRes (w.heap wid) ThingType.Water := by
        simp [hf, hwid_w]
      have hr0 : 0 ≤ getRes (w.heap wid) ThingType.Water := hnn wid hwid_s
      rw [htot', htot, sum_map_add_ite]
      have hcnt' : (E.count self : Int) ≤ 1 := by exact_mod_cast hcnt
      linarith
    · -- exact 1:1 exchange
      have hww : wid' = wid := by
        injection hw' with h
        exact h.symm
      subst hww
      refine ⟨hrem, ?_, hheap_ne⟩
      rw [hheap_self, mathRes_getRes_same]

/-! ### Non-negativity -/

theorem getRes_nonneg {w : SimState} (h : NonNegWorld w) (id : ThingId) (rt : ThingType) :
    0 ≤ getRes (w.heap id) rt := by
  unfold getRes
  cases hres : (w.heap id).resources rt with
  | none => simp
  | some v => simpa using h id rt v hres

theorem nonNeg_updateThing {w : SimState} {self : ThingId} (h : NonNegWorld w)
    (f : Thing → Thing)
    (hf : ∀ rt v, (f (w.heap self)).resources rt = some v → 0 ≤ v) :
    NonNegWorld (updateThing w self f) := by
  intro id rt v hres
  by_cases hid : id = self
  · subst hid
    rw [updateThing_heap_self] at hres
    exact hf rt v hres
  · rw [updateThing_heap_ne hid] at hres
    exact h id rt v hres

theorem nonNeg_alloc {w : SimState} (h : NonNegWorld w) (t : Thing)
    (ht : ∀ rt v, t.resources rt = some v → 0 ≤ v) :
    NonNegWorld (allocThing t w) := by
  intro id rt v hres
  by_cases hid : id = w.nextId
  · subst hid
    rw [allocThing_heap_new] at hres
    exact ht rt v hres
  · rw [allocThing_heap_ne hid] at hres
    exact h id rt v hres

theorem nonNeg_mathRes_update {w : SimState} {self : ThingId} {v : Int} (h : NonNegWorld w)
    (hv : 0 ≤ getRes (w.heap self) ThingType.Water + v) :
    NonNegWorld (updateThing w self (fun t => mathRes t ThingType.Water v)) := by
  refine nonNeg_updateThing h _ ?_
  intro rt u hres
  by_cases hrt : rt = ThingType.Water
  · subst hrt
    rw [mathRes_res_same] at hres
    injection hres with h'
    exact h' ▸ hv
  · rw [mathRes_res_ne hrt] at hres
    exact h self rt u hres

theorem nonNeg_setType {w : SimState} {self : ThingId} (h : NonNegWorld w) (ty : ThingType) :
    NonNegWorld (updateThing w self (fun t => { t with type := ty })) := by
  refine nonNeg_updateThing h _ ?_
  intro rt u hres
  exact h self rt u hres

theorem nonNeg_things_swap {w : SimState} (h : NonNegWorld w) (s : Store) :
    NonNegWorld { w with things := s } := h

theorem nonNeg_rainLoop {self : ThingId} :
    ∀ (n : Nat) (w : SimState), NonNegWorld w → self < w.nextId →
      NonNegWorld (rainLoop self n w) := by
  intro n
  induction n with
  | zero => intro w h _; exact h
  | succ m ih =>
    intro w h hlt
    unfold rainLoop
    split
    · rename_i hgt
      have hne : self ≠ w.nextId := Nat.ne_of_lt hlt
      have h1 : NonNegWorld (allocThing (water (w.heap self).pos) w) :=
        nonNeg_alloc h _ (by intro rt v hres; simp [water] at hres)
      have hres1 : getRes ((allocThing (water (w.heap self).pos) w).heap self) ThingType.Water
          = getRes (w.heap self) ThingType.Water := by
        rw [allocThing_heap_ne hne]
      have h2 : NonNegWorld (updateThing (allocThing (water (w.heap self).pos) w) self
          (fun t => mathRes t ThingType.Water (-1))) := by
        refine nonNeg_mathRes_update h1 ?_
        rw [hres1]
        linarith [hgt]
      refine ih _ h2 ?_
      simp only [updateThing_nextId, allocThing_nextId]
      exact Nat.lt_succ_of_lt hlt
    · exact h

/-- C10: every control invocation preserves non-negativity of all resource
    counts: `rootDown` subtracts 2 Water only under the guard `Water > 2`,
    `rain` subtracts 1 Water only while `Water > 0`, and the other controls
    only add. -/
theorem C10_controls_nonneg (w : SimState) (self : ThingId) (q : List ThingId)
    (h : NonNegWorld w) (hlt : self < w.nextId) :
    NonNegWorld (absorbWater q self w) ∧ NonNegWorld (rootDown self w) ∧
    NonNegWorld (condenseWater self w) ∧ NonNegWorld (rain self w) := by
  refine ⟨?_, ?_, ?_, ?_⟩
  · -- absorbWater
    cases hfind : q.find? (fun id => decide ((w.heap id).type = ThingType.Water)) with
    | none => rw [absorbWater_eq_none hfind]; exact h
    | some wid =>
      rw [absorbWater_eq_some hfind]
      refine nonNeg_mathRes_update (w := { w with things := removeThing w.heap wid w.things })
        (nonNeg_things_swap h _) ?_
      show 0 ≤ getRes (w.heap self) ThingType.Water + 1
      linarith [getRes_nonneg h self ThingType.Water]
  · -- rootDown
    unfold rootDown
    split
    · rename_i hgt
      have hne : self ≠ w.nextId := Nat.ne_of_lt hlt
      have h1 : NonNegWorld (allocThing (root ((w.heap self).pos.1, (w.heap self).pos.2 + 1)) w) :=
        nonNeg_alloc h _ (by intro rt v hres; simp [root] at hres)
      refine nonNeg_mathRes_update h1 ?_
      rw [allocThing_heap_ne hne]
      linarith [hgt]
    · exact h
  · -- condenseWater
    unfold condenseWater
    have hbase : ∀ w1 : SimState, NonNegWorld w1 →
        NonNegWorld (if getRes (w1.heap self) ThingType.Water > 10 then
          updateThing w1 self (fun t => { t with type := ThingType.RainCloud }) else w1) := by
      intro w1 h1
      split
      · exact nonNeg_setType h1 _
      · exact h1
    split
    · refine hbase _ ?_
      refine nonNeg_mathRes_update h ?_
      linarith [getRes_nonneg h self ThingType.Water]
    · exact hbase _ h
  · -- rain
    have hloop := nonNeg_rainLoop 4 w h hlt
    show NonNegWorld (if ((rainLoop self 4 w).heap self).resources ThingType.Water = some 0 then
      updateThing (rainLoop self 4 w) self (fun t => { t with type := ThingType.Cloud })
      else rainLoop self 4 w)
    split
    · exact nonNeg_setType hloop _
    · exact hloop

/-- Build a concrete heap from a list of records (ids are list positions). -/
def mkHeap (l : List Thing) : ThingId → Thing := fun i => l.getD i (water (0, 0))

/-- C4: `condenseWater` adds 5 Water exactly when `tick % 3 = 0`; afterwards
    the Cloud's type is RainCloud if and only if its Water resource exceeds
    10 (exactly 10 stays Cloud), and the transition changes nothing else:
    all other resource keys, all other things, the store and the tick are
    untouched. -/
theorem C4_condense_threshold (w : SimState) (self : ThingId)
    (htype : (w.heap self).type = ThingType.Cloud) :
    getRes ((condenseWater self w).heap self) ThingType.Water
      = getRes (w.heap self) ThingType.Water + (if w.tick % 3 = 0 then 5 else 0) ∧
    (((condenseWater self w).heap self).type = ThingType.RainCloud ↔
      getRes ((condenseWater self w).heap self) ThingType.Water > 10) ∧
    (¬getRes ((condenseWater self w).heap self) ThingType.Water > 10 →
      ((condenseWater self w).heap self).type = ThingType.Cloud) ∧
    (∀ rt, rt ≠ ThingType.Water → ((condenseWater self w).heap self).resources rt
      = (w.heap self).resources rt) ∧
    (∀ i, i ≠ self → (condenseWater self w).heap i = w.heap i) ∧
    (condenseWater self w).things = w.things ∧ (condenseWater self w).tick = w.tick := by
  set w1 := if w.tick % 3 = 0 then updateThing w self (fun t => mathRes t ThingType.Water 5)
    else w with hw1
  have hcond : condenseWater self w =
      if getRes (w1.heap self) ThingType.Water > 10 then
        updateThing w1 self (fun t => { t with type := ThingType.RainCloud })
      else w1 := rfl
  have h1ne : ∀ i, i ≠ self → w1.heap i = w.heap i := by
    intro i hi
    rw [hw1]
    by_cases h3 : w.tick % 3 = 0
    · rw [if_pos h3, updateThing_heap_ne hi]
    · rw [if_neg h3]
  have h1res : getRes (w1.heap self) ThingType.Water
      = getRes (w.heap self) ThingType.Water + (if w.tick % 3 = 0 then 5 else 0) := by
    rw [hw1]
    by_cases h3 : w.tick % 3 = 0
    · rw [if_pos h3, if_pos h3, updateThing_heap_self, mathRes_getRes_same]
    · rw [if_neg h3, if_neg h3]
      ring
  have h1resne : ∀ rt, rt ≠ ThingType.Water →
      (w1.heap self).resources rt = (w.heap self).resources rt := by
    intro rt hrt
    rw [hw1]
    by_cases h3 : w.tick % 3 = 0
    · rw [if_pos h3, updateThing_heap_self, mathRes_res_ne hrt]
    · rw [if_neg h3]
  have h1type : (w1.heap self).type = ThingType.Cloud := by
    rw [hw1]
    by_cases h3 : w.tick % 3 = 0
    · rw [if_pos h3, updateThing_heap_self, mathRes_type, htype]
    · rw [if_neg h3, htype]
  have h1things : w1.things = w.things := by
    rw [hw1]
    by_cases h3 : w.tick % 3 = 0
    · rw [if_pos h3, updateThing_things]
    · rw [if_neg h3]
  have h1tick : w1.tick = w.tick := by
    rw [hw1]
    by_cases h3 : w.tick % 3 = 0
    · rw [if_pos h3, updateThing_tick]
    · rw [if_neg h3]
  by_cases h10 : getRes (w1.heap self) ThingType.Water > 10
  · rw [hcond, if_pos h10]
    have hfinres : getRes ((updateThing w1 self
        (fun t => { t with type := ThingType.RainCloud })).heap self) ThingType.Water
        = getRes (w1.heap self) ThingType.Water := by
      rw [updateThing_heap_self]
      rfl
    refine ⟨by rw [hfinres, h1res], ?_, ?_, ?_, ?_, by rw [updateThing_things, h1things],
      by rw [updateThing_tick, h1tick]⟩
    · rw [hfinres]
      constructor
      · intro _
        exact h10
      · intro _
        rw [updateThing_heap_self]
    · rw [hfinres]
      intro hc
      exact absurd h10 hc
    · intro rt hrt
      rw [updateThing_heap_self]
      show (w1.heap self).resources rt = (w.heap self).resources rt
      exact h1resne rt hrt
    · intro i hi
      rw [updateThing_heap_ne hi]
      exact h1ne i hi
  · rw [hcond, if_neg h10]
    refine ⟨h1res, ?_, fun _ => h1type, h1resne, h1ne, h1things, h1tick⟩
    constructor
    · intro hc
      rw [h1type] at hc
      exact absurd hc (by intro h; cases h)
    · intro hgt
      exact absurd hgt h10

theorem range_map_shift (a m : Nat) :
    (List.range (m + 1)).map (fun j => a + j) = a :: (List.range m).map (fun j => a + 1 + j) := by
  rw [List.range_succ_eq_map]
  simp only [List.map_cons, List.map_map, Nat.add_zero]
  refine congrArg (a :: ·) ?_
  refine List.map_congr_left ?_
  intro j _
  show a + (j + 1) = a + 1 + j
  omega

/-- Full characterization of the `rain` dispensing loop: with `Water = k ≥ 0`
    (key present) and `n` drops of budget left, it allocates exactly
    `min n k.toNat` fresh Water things at the cloud's position, appends them
    to the store, and leaves `Water = k - min n k.toNat` on the cloud. -/
theorem rainLoop_spec (self : ThingId) :
    ∀ (n : Nat) (w : SimState) (k : Int),
      (w.heap self).resources ThingType.Water = some k → 0 ≤ k →
      self < w.nextId → (storeKeys w.things).Nodup →
      (rainLoop self n w).nextId = w.nextId + min n k.toNat ∧
      List.Perm (storeIds (rainLoop self n w).things)
        (((List.range (min n k.toNat)).map (fun j => w.nextId + j)) ++ storeIds w.things) ∧
      (∀ j, j < min n k.toNat →
        (rainLoop self n w).heap (w.nextId + j) = water (w.heap self).pos) ∧
      ((rainLoop self n w).heap self).type = (w.heap self).type ∧
      ((rainLoop self n w).heap self).pos = (w.heap self).pos ∧
      ((rainLoop self n w).heap self).resources ThingType.Water
        = some (k - (min n k.toNat : Nat)) ∧
      (∀ rt, rt ≠ ThingType.Water →
        ((rainLoop self n w).heap self).resources rt = (w.heap self).resources rt) ∧
      (∀ i, i ≠ self → i < w.nextId → (rainLoop self n w).heap i = w.heap i) ∧
      (storeKeys (rainLoop self n w).things).Nodup := by
  intro n
  induction n with
  | zero =>
    intro w k hres hk hlt hnd
    refine ⟨by simp [rainLoop], by simp [rainLoop], by simp, by simp [rainLoop],
      by simp [rainLoop], by simpa [rainLoop] using hres, fun rt _ => by simp [rainLoop],
      fun i _ _ => by simp [rainLoop], by simpa [rainLoop] using hnd⟩
  | succ m ih =>
    intro w k hres hk hlt hnd
    have hgr : getRes (w.heap self) ThingType.Water = k := by simp [getRes, hres]
    by_cases hpos : getRes (w.heap self) ThingType.Water > 0
    · have hk1 : 1 ≤ k := by rw [hgr] at hpos; linarith
      have hne : self ≠ w.nextId := Nat.ne_of_lt hlt
      have hne' : w.nextId ≠ self := fun hc => hne hc.symm
      set p := (w.heap self).pos with hp
      set wA := allocThing (water p) w with hwA
      set w2 := updateThing wA self (fun t => mathRes t ThingType.Water (-1)) with hw2
      have hstep : rainLoop self (m + 1) w = rainLoop self m w2 := by
        show (if getRes (w.heap self) ThingType.Water > 0 then
          rainLoop self m (updateThing (allocThing (water (w.heap self).pos) w) self
            (fun t => mathRes t ThingType.Water (-1))) else w) = rainLoop self m w2
        rw [if_pos hpos]
      have hAself : wA.heap self = w.heap self := by
        rw [hwA]
        exact allocThing_heap_ne hne _
      have h2res : (w2.heap self).resources ThingType.Water = some (k - 1) := by
        rw [hw2, updateThing_heap_self, mathRes_res_same, hAself, hgr]
        refine congrArg some ?_
        ring
      have h2next : w2.nextId = w.nextId + 1 := by
        rw [hw2, updateThing_nextId, hwA, allocThing_nextId]
      have h2lt : self < w2.nextId := by
        rw [h2next]
        exact Nat.lt_succ_of_lt hlt
      have h2things : w2.things
          = addThing (fun i => if i = w.nextId then water p else w.heap i) w.nextId w.things := by
        rw [hw2, updateThing_things, hwA, allocThing_things]
      have h2keys : (storeKeys w2.things).Nodup := by
        rw [h2things]
        exact addThing_keysNodup hnd
      have h2ids : List.Perm (storeIds w2.things) (w.nextId :: storeIds w.things) := by
        rw [h2things]
        exact storeIds_addThing _ w.nextId w.things hnd
      have h2type : (w2.heap self).type = (w.heap self).type := by
        rw [hw2, updateThing_heap_self, mathRes_type, hAself]
      have h2pos : (w2.heap self).pos = (w.heap self).pos := by
        rw [hw2, updateThing_heap_self, mathRes_pos, hAself]
      have h2resne : ∀ rt, rt ≠ ThingType.Water →
          (w2.heap self).resources rt = (w.heap self).resources rt := by
        intro rt hrt
        rw [hw2, updateThing_heap_self, mathRes_res_ne hrt, hAself]
      have h2old : ∀ i, i ≠ self → i < w.nextId → w2.heap i = w.heap i := by
        intro i hi hilt
        rw [hw2, updateThing_heap_ne hi, hwA, allocThing_heap_ne (Nat.ne_of_lt hilt)]
      have h2fresh : w2.heap w.nextId = water p := by
        rw [hw2, updateThing_heap_ne hne', hwA, allocThing_heap_new]
      obtain ⟨iNext, iPerm, iFresh, iType, iPos, iRes, iResNe, iOld, iKeys⟩ :=
        ih w2 (k - 1) h2res (by linarith) h2lt h2keys
      have hmin : min (m + 1) k.toNat = min m (k - 1).toNat + 1 := by omega
      refine ⟨?_, ?_, ?_, ?_, ?_, ?_, ?_, ?_, ?_⟩
      · rw [hstep, iNext, h2next, hmin]
        ring
      · rw [hstep, hmin, range_map_shift, List.cons_append]
        refine iPerm.trans ?_
        rw [h2next]
        refine (List.Perm.append_left _ h2ids).trans ?_
        exact List.perm_middle
      · intro j hj
        rw [hstep]
        cases j with
        | zero =>
          have h0 : w.nextId + 0 = w.nextId := rfl
          rw [h0, iOld w.nextId hne' (by rw [h2next]; exact Nat.lt_succ_self _), h2fresh, hp]
        | succ j' =>
          have hj' : j' < min m (k - 1).toNat := by
            rw [hmin] at hj
            omega
          have hshift : w.nextId + (j' + 1) = w2.nextId + j' := by
            rw [h2next]
            ring
          rw [hshift, iFresh j' hj', h2pos, hp]
      · rw [hstep, iType, h2type]
      · rw [hstep, iPos, h2pos]
      · rw [hstep, iRes]
        refine congrArg some ?_
        have hcast : ((min (m + 1) k.toNat : Nat) : Int) = ((min m (k - 1).toNat : Nat) : Int) + 1 := by
          rw [hmin]
          push_cast
          ring
        rw [hcast]
        ring
      · intro rt hrt
        rw [hstep, iResNe rt hrt, h2resne rt hrt]
      · intro i hi hilt
        rw [hstep, iOld i hi (by rw [h2next]; exact Nat.lt_succ_of_lt hilt), h2old i hi hilt]
      · rw [hstep]
        exact iKeys
    · have hk0 : k = 0 := by
        rw [hgr] at hpos
        omega
      have hstep : rainLoop self (m + 1) w = w := by
        show (if getRes (w.heap self) ThingType.Water > 0 then
          rainLoop self m (updateThing (allocThing (water (w.heap self).pos) w) self
            (fun t => mathRes t ThingType.Water (-1))) else w) = w
        rw [if_neg hpos]
      have hmin0 : min (m + 1) k.toNat = 0 := by omega
      refine ⟨by rw [hstep, hmin0]; simp, by rw [hstep, hmin0]; simp, ?_, by rw [hstep],
        by rw [hstep], ?_, fun rt _ => by rw [hstep], fun i _ _ => by rw [hstep],
        by rw [hstep]; exact hnd⟩
      · intro j hj
        rw [hmin0] at hj
        exact absurd hj (Nat.not_lt_zero j)
      · rw [hstep, hmin0, hres, hk0]
        simp

/-- C3: `rain` on a RainCloud with `Water = 2` inserts exactly 2 fresh Water
    things at the cloud's exact position and leaves the cloud as type Cloud
    with `Water = 0`; on a RainCloud with `Water = 6` it inserts exactly 4
    Water things (the per-invocation cap) and the cloud stays RainCloud with
    `Water = 2`. -/
theorem C3_rain_bounded (w : SimState) (self : ThingId)
    (hid : self < w.nextId)
    (hkeys : (storeKeys w.things).Nodup)
    (htype : (w.heap self).type = ThingType.RainCloud) :
    ((w.heap self).resources ThingType.Water = some 2 →
      List.Perm (storeIds (rain self w).things)
        ([w.nextId, w.nextId + 1] ++ storeIds w.things) ∧
      (rain self w).heap w.nextId = water (w.heap self).pos ∧
      (rain self w).heap (w.nextId + 1) = water (w.heap self).pos ∧
      ((rain self w).heap self).type = ThingType.Cloud ∧
      ((rain self w).heap self).resources ThingType.Water = some 0 ∧
      (rain self w).nextId = w.nextId + 2) ∧
    ((w.heap self).resources ThingType.Water = some 6 →
      List.Perm (storeIds (rain self w).things)
        ([w.nextId, w.nextId + 1, w.nextId + 2, w.nextId + 3] ++ storeIds w.things) ∧
      (∀ j, j < 4 → (rain self w).heap (w.nextId + j) = water (w.heap self).pos) ∧
      ((rain self w).heap self).type = ThingType.RainCloud ∧
      ((rain self w).heap self).resources ThingType.Water = some 2 ∧
      (rain self w).nextId = w.nextId + 4) := by
  have hne0 : w.nextId ≠ self := fun hc => (Nat.ne_of_lt hid) hc.symm
  constructor
  · intro hres
    obtain ⟨iNext, iPerm, iFresh, iType, iPos, iRes, iResNe, iOld, iKeys⟩ :=
      rainLoop_spec self 4 w 2 hres (by norm_num) hid hkeys
    have hm : min 4 (2 : Int).toNat = 2 := by decide
    have hres0 : ((rainLoop self 4 w).heap self).resources ThingType.Water = some 0 := by
      rw [iRes, hm]
      norm_num
    have hrain : rain self w = updateThing (rainLoop self 4 w) self
        (fun t => { t with type := ThingType.Cloud }) := by
      show (if ((rainLoop self 4 w).heap self).resources ThingType.Water = some 0 then
        updateThing (rainLoop self 4 w) self (fun t => { t with type := ThingType.Cloud })
        else rainLoop self 4 w) = _
      rw [if_pos hres0]
    have hr2 : (List.range 2).map (fun j => w.nextId + j) = [w.nextId, w.nextId + 1] := by
      simp [List.range_succ]
    refine ⟨?_, ?_, ?_, ?_, ?_, ?_⟩
    · rw [hrain, updateThing_things]
      rw [hm, hr2] at iPerm
      exact iPerm
    · rw [hrain, updateThing_heap_ne hne0]
      have hf := iFresh 0 (by rw [hm]; norm_num)
      simpa using hf
    · have hne1 : w.nextId + 1 ≠ self := fun hc => by
        have : self < w.nextId + 1 := Nat.lt_succ_of_lt hid
        rw [hc] at this
        exact Nat.lt_irrefl _ this
      rw [hrain, updateThing_heap_ne hne1]
      exact iFresh 1 (by rw [hm]; norm_num)
    · rw [hrain, updateThing_heap_self]
    · rw [hrain, updateThing_heap_self]
      exact hres0
    · rw [hrain, updateThing_nextId, iNext, hm]
  · intro hres
    obtain ⟨iNext, iPerm, iFresh, iType, iPos, iRes, iResNe, iOld, iKeys⟩ :=
      rainLoop_spec self 4 w 6 hres (by norm_num) hid hkeys
    have hm : min 4 (6 : Int).toNat = 4 := by decide
    have hres2 : ((rainLoop self 4 w).heap self).resources ThingType.Water = some 2 := by
      rw [iRes, hm]
      norm_num
    have hrain : rain self w = rainLoop self 4 w := by
      show (if ((rainLoop self 4 w).heap self).resources ThingType.Water = some 0 then
        updateThing (rainLoop self 4 w) self (fun t => { t with type := ThingType.Cloud })
        else rainLoop self 4 w) = rainLoop self 4 w
      rw [if_neg (by rw [hres2]; simp)]
    have hr4 : (List.range 4).map (fun j => w.nextId + j)
        = [w.nextId, w.nextId + 1, w.nextId + 2, w.nextId + 3] := by
      simp [List.range_succ]
    refine ⟨?_, ?_, ?_, ?_, ?_⟩
    · rw [hrain]
      rw [hm, hr4] at iPerm
      exact iPerm
    · intro j hj
      rw [hrain]
      exact iFresh j (by rw [hm]; exact hj)
    · rw [hrain, iType, htype]
    · rw [hrain]
      exact hres2
    · rw [hrain, iNext, hm]

theorem rainLoop_type (self : ThingId) :
    ∀ (n : Nat) (w : SimState), self < w.nextId →
      ((rainLoop self n w).heap self).type = (w.heap self).type := by
  intro n
  induction n with
  | zero => intro w _; simp [rainLoop]
  | succ m ih =>
    intro w hlt
    by_cases hpos : getRes (w.heap self) ThingType.Water > 0
    · have hne : self ≠ w.nextId := Nat.ne_of_lt hlt
      have hstep : rainLoop self (m + 1) w = rainLoop self m
          (updateThing (allocThing (water (w.heap self).pos) w) self
            (fun t => mathRes t ThingType.Water (-1))) := by
        show (if getRes (w.heap self) ThingType.Water > 0 then
          rainLoop self m (updateThing (allocThing (water (w.heap self).pos) w) self
            (fun t => mathRes t ThingType.Water (-1))) else w) = _
        rw [if_pos hpos]
      have hlt2 : self < (updateThing (allocThing (water (w.heap self).pos) w) self
          (fun t => mathRes t ThingType.Water (-1))).nextId := by
        simp only [updateThing_nextId, allocThing_nextId]
        exact Nat.lt_succ_of_lt hlt
      rw [hstep, ih _ hlt2, updateThing_heap_self, mathRes_type, allocThing_heap_ne hne]
    · have hstep : rainLoop self (m + 1) w = w := by
        show (if getRes (w.heap self) ThingType.Water > 0 then
          rainLoop self m (updateThing (allocThing (water (w.heap self).pos) w) self
            (fun t => mathRes t ThingType.Water (-1))) else w) = w
        rw [if_neg hpos]
      rw [hstep]

/-- C8 amended: `rain` reverts a RainCloud's type to Cloud exactly when,
    after the dispensing loop, the Water key is *present* with value 0; a
    resources record with the key entirely absent (which `getRes` reads as 0)
    does not trigger the reversion, because the check reads the raw key. -/
theorem C8_rain_revert_requires_key (w : SimState) (self : ThingId)
    (hlt : self < w.nextId)
    (htype : (w.heap self).type = ThingType.RainCloud) :
    ((rain self w).heap self).type = ThingType.Cloud ↔
      ((rainLoop self 4 w).heap self).resources ThingType.Water = some 0 := by
  by_cases hc : ((rainLoop self 4 w).heap self).resources ThingType.Water = some 0
  · have hrain : rain self w = updateThing (rainLoop self 4 w) self
        (fun t => { t with type := ThingType.Cloud }) := by
      show (if ((rainLoop self 4 w).heap self).resources ThingType.Water = some 0 then
        updateThing (rainLoop self 4 w) self (fun t => { t with type := ThingType.Cloud })
        else rainLoop self 4 w) = _
      rw [if_pos hc]
    rw [hrain, updateThing_heap_self]
    simp [hc]
  · have hrain : rain self w = rainLoop self 4 w := by
      show (if ((rainLoop self 4 w).heap self).resources ThingType.Water = some 0 then
        updateThing (rainLoop self 4 w) self (fun t => { t with type := ThingType.Cloud })
        else rainLoop self 4 w) = rainLoop self 4 w
      rw [if_neg hc]
    rw [hrain, rainLoop_type self 4 w hlt, htype]
    simp [hc]

/-- The RainCloud of the C8 counterexample: its resources record has no keys
    at all. -/
def exW8 : SimState :=
  ⟨0, [((5, 5), [0])], mkHeap [⟨ThingType.RainCloud, (5, 5), fun _ => none⟩], 1⟩

/-- C8 counterexample: this RainCloud's Water resource reads as 0 (the key is
    absent), yet `rain` leaves its type as RainCloud instead of reverting it
    to Cloud as the claim requires. -/
theorem C8_counterexample :
    getRes (exW8.heap 0) ThingType.Water = 0 ∧
    (exW8.heap 0).resources ThingType.Water = none ∧
    (exW8.heap 0).type = ThingType.RainCloud ∧
    ((rain 0 exW8).heap 0).type = ThingType.RainCloud := by
  refine ⟨rfl, rfl, rfl, rfl⟩

/-- A RainCloud with the Water key present at 0, for the C8 witness. -/
def exW8b : SimState :=
  ⟨0, [((5, 5), [0])],
    mkHeap [⟨ThingType.RainCloud, (5, 5), fun rt => if rt = ThingType.Water then some 0 else none⟩],
    1⟩

/-- Witness for the amended C8 at a concrete RainCloud whose Water key is
    present with value 0: the reversion fires. -/
theorem C8_rain_revert_requires_key_witness :
    0 < exW8b.nextId ∧ (exW8b.heap 0).type = ThingType.RainCloud ∧
    (((rain 0 exW8b).heap 0).type = ThingType.Cloud ↔
      ((rainLoop 0 4 exW8b).heap 0).resources ThingType.Water = some 0) :=
  ⟨by decide, rfl, C8_rain_revert_requires_key exW8b 0 (by decide) rfl⟩

/-- C6 amended: the shuffled permutation of a cell is computed from the cell
    content at the moment the cell's processing begins, so a thing allocated
    during the call (any id at or above `nextId`) is never among the things
    invoked for that already-snapshotted cell — creation cannot re-enter the
    current permutation.  (A thing inserted into a cell visited later in the
    same call DOES have its controls run in that same call; see the
    counterexample.) -/
theorem C6_first_cell_deferral (sh : List ThingId → List ThingId)
    (w : SimState) (delta : Int) (p : Pos) (ps : List Pos) (cell : List ThingId)
    (hcell : storeGet p w.things = some cell)
    (hbound : ∀ id ∈ cell, id < w.nextId)
    (hsh : ∀ l : List ThingId, ∀ x ∈ sh l, x ∈ l) :
    (∃ rest, (advanceSim sh (p :: ps) w delta).2 = sh cell ++ rest) ∧
    (∀ id, w.nextId ≤ id → id ∉ sh cell) := by
  constructor
  · refine ⟨(processCells sh ps
      (runIds (sh cell) { w with tick := w.tick + delta })).2, ?_⟩
    have hc2 : storeGet p ({ w with tick := w.tick + delta } : SimState).things = some cell :=
      hcell
    show (processCells sh (p :: ps) { w with tick := w.tick + delta }).2 = _
    rw [processCells, hc2]
  · intro id hle hmem
    exact absurd (hbound id (hsh cell id hmem)) (Nat.not_lt.mpr hle)

/-- World for the C6 counterexample: a Seed at (0,0) with Water = 3 (so
    `rootDown` fires) and a Cloud at (0,1) keeping that cell alive. -/
def exW6 : SimState :=
  ⟨0, [((0, 0), [0]), ((0, 1), [1])],
    mkHeap [⟨ThingType.Seed, (0, 0), fun rt => if rt = ThingType.Water then some 3 else none⟩,
      cloud (0, 1)], 2⟩

/-- C6 counterexample: during one `advanceSim` call (identity shuffle, cells
    visited in store order), the Seed's `rootDown` inserts a fresh Root
    (id 2 = `nextId`, so not in the store when the call began) into the
    not-yet-visited cell (0,1), and that Root's controls ARE invoked in the
    same call — the invocation list is [0, 1, 2]. -/
theorem C6_counterexample :
    (advanceSim (fun l => l) [((0 : Int), (0 : Int)), ((0 : Int), (1 : Int))] exW6 1).2
      = [0, 1, 2] ∧
    exW6.nextId = 2 ∧ storeIds exW6.things = [0, 1] := by
  refine ⟨rfl, rfl, rfl⟩

/-- World for the C6 witness: one Cloud alone in one cell. -/
def exW6b : SimState := ⟨0, [((0, 0), [0])], mkHeap [cloud (0, 0)], 1⟩

/-- Witness for the amended C6 at a concrete world and identity shuffle. -/
theorem C6_first_cell_deferral_witness :
    (∃ rest, (advanceSim (fun l => l) [((0 : Int), (0 : Int))] exW6b 1).2
      = (fun l : List ThingId => l) [0] ++ rest) ∧
    (∀ id, exW6b.nextId ≤ id → id ∉ (fun l : List ThingId => l) [0]) :=
  C6_first_cell_deferral (fun l => l) exW6b 1 ((0 : Int), (0 : Int)) [] [0]
    rfl (by decide) (fun l x hx => hx)

/-- World for the C9 counterexample: two Seeds in different cells, (0,0) and
    (2,0), each at grid distance 1 from the single Water at (1,0). -/
def exW9 : SimState :=
  ⟨0, [((0, 0), [0]), ((2, 0), [1]), ((1, 0), [2])],
    mkHeap [seed (0, 0), seed (2, 0), water (1, 0)], 3⟩

/-- The deterministic cell visit order for `exW9`'s store. -/
def order9 : List Pos := [((0 : Int), (0 : Int)), ((2 : Int), (0 : Int)), ((1 : Int), (0 : Int))]

/-- C9 counterexample: with the two equidistant Seeds in *different* cells,
    every reachable outcome of a single tick (over all per-cell shuffle
    choices — the cells are singletons, so the shuffle decides nothing) gives
    the Water to seed 0 and never to seed 1: the winner is fully determined
    by the cell visit order, which is fixed for a given store, so over
    repeated fresh-world trials the split is 100% / 0%, not roughly even. -/
theorem C9_counterexample :
    (advanceSimAll order9 exW9 1).map
      (fun v => (getRes (v.heap 0) ThingType.Water, getRes (v.heap 1) ThingType.Water))
      = [(1, 0)] := by
  rfl

/-- World for the amended C9: the two Seeds share the cell (0,0), the Water
    sits at (1,0). -/
def exW9s : SimState :=
  ⟨0, [((0, 0), [0, 1]), ((1, 0), [2])],
    mkHeap [seed (0, 0), seed (0, 0), water (1, 0)], 3⟩

/-- The deterministic cell visit order for `exW9s`'s store. -/
def order9s : List Pos := [((0 : Int), (0 : Int)), ((1 : Int), (0 : Int))]

/-- C9 amended: when the two equidistant Seeds share one cell, the per-cell
    random permutation does decide the contest fairly: the single tick has
    exactly two reachable outcomes (one per permutation of the cell), and
    each seed acquires the Water in exactly one of them, so a uniform shuffle
    gives each seed the Water with probability 1/2. -/
theorem C9_same_cell_fair :
    (advanceSimAll order9s exW9s 1).map
      (fun v => (getRes (v.heap 0) ThingType.Water, getRes (v.heap 1) ThingType.Water))
      = [(1, 0), (0, 1)] := by
  rfl

/-! ### Snapshot codec lemmas -/

theorem typeName_inj : ∀ a b : ThingType, typeName a = typeName b → a = b := by
  decide

theorem typeOfName_typeName (t : ThingType) : typeOfName (typeName t) = some t := by
  cases t <;> rfl

theorem allTypes_nodup : allTypes.Nodup := by
  decide

theorem mem_allTypes (t : ThingType) : t ∈ allTypes := by
  cases t <;> simp [allTypes]

theorem jLookup_cons_self (k : String) (v : Json) (fs : List (String × Json)) :
    jLookup ((k, v) :: fs) k = some v := by
  simp [jLookup, List.find?]

theorem jLookup_cons_ne {k' k : String} (h : k' ≠ k) (v : Json) (fs : List (String × Json)) :
    jLookup ((k', v) :: fs) k = jLookup fs k := by
  simp [jLookup, List.find?, h]

theorem jLookup_res_encode_none (r : ThingType → Option Int) :
    ∀ (l : List ThingType) (rt : ThingType), rt ∉ l →
      jLookup (l.filterMap (fun a => (r a).map (fun v => (typeName a, Json.num v))))
        (typeName rt) = none := by
  intro l
  induction l with
  | nil => intro rt _; rfl
  | cons a tl ih =>
    intro rt hrt
    have hne : rt ≠ a := fun hc => hrt (hc ▸ List.mem_cons_self a tl)
    have htl : rt ∉ tl := fun hm => hrt (List.mem_cons_of_mem a hm)
    rw [List.filterMap_cons]
    cases hra : r a with
    | none => exact ih rt htl
    | some v =>
      simp only [Option.map_some']
      rw [jLookup_cons_ne (fun hc => hne ((typeName_inj a rt hc).symm)) _ _]
      exact ih rt htl

theorem jLookup_res_encode (r : ThingType → Option Int) :
    ∀ (l : List ThingType), l.Nodup → ∀ rt ∈ l,
      jLookup (l.filterMap (fun a => (r a).map (fun v => (typeName a, Json.num v))))
        (typeName rt) = (r rt).map Json.num := by
  intro l
  induction l with
  | nil => simp
  | cons a tl ih =>
    intro hnd rt hrt
    obtain ⟨hna, hndtl⟩ := List.nodup_cons.mp hnd
    rcases List.mem_cons.mp hrt with rfl | hmem
    · cases hra : r rt with
      | none =>
        simp only [List.filterMap_cons, hra, Option.map_none']
        exact jLookup_res_encode_none r tl rt hna
      | some v =>
        simp only [List.filterMap_cons, hra, Option.map_some']
        exact jLookup_cons_self _ _ _
    · have hne : rt ≠ a := fun hc => hna (hc ▸ hmem)
      cases hra : r a with
      | none =>
        simp only [List.filterMap_cons, hra, Option.map_none']
        exact ih hndtl rt hmem
      | some v =>
        simp only [List.filterMap_cons, hra, Option.map_some']
        rw [jLookup_cons_ne (fun hc => hne ((typeName_inj a rt hc).symm)) _ _]
        exact ih hndtl rt hmem

theorem resourcesOfJson_roundtrip (r : ThingType → Option Int) :
    resourcesOfJson (resourcesToJson r) = some r := by
  show some (fun rt =>
      match jLookup (allTypes.filterMap (fun a => (r a).map (fun v => (typeName a, Json.num v))))
        (typeName rt) with
      | some (Json.num v) => some v
      | _ => none) = some r
  refine congrArg some ?_
  funext rt
  rw [jLookup_res_encode r allTypes allTypes_nodup rt (mem_allTypes rt)]
  cases hr : r rt <;> simp

theorem posOfJson_pair (a b : Int) : posOfJson (Json.arr [Json.num a, Json.num b]) = some (a, b) :=
  rfl

theorem thingOfJson_roundtrip (t : Thing) : thingOfJson (thingToJson t) = some t := by
  have h1 : thingOfJson (thingToJson t) =
      (match typeOfName (typeName t.type),
        posOfJson (Json.arr [Json.num t.pos.1, Json.num t.pos.2]),
        resourcesOfJson (resourcesToJson t.resources) with
      | some ty, some p, some r => some ⟨ty, p, r⟩
      | _, _, _ => none) := rfl
  rw [h1, typeOfName_typeName, posOfJson_pair, resourcesOfJson_roundtrip]

theorem mapM_thingOfJson_roundtrip (c : List Thing) :
    (c.map thingToJson).mapM thingOfJson = some c := by
  induction c with
  | nil => rfl
  | cons t tl ih =>
    rw [List.map_cons, List.mapM_cons, thingOfJson_roundtrip, ih]
    rfl

theorem entryOfJson_roundtrip (p : Pos) (c : List Thing) :
    entryOfJson (Json.arr [Json.arr [Json.num p.1, Json.num p.2],
      Json.arr (c.map thingToJson)]) = some (p, c) := by
  have h1 : entryOfJson (Json.arr [Json.arr [Json.num p.1, Json.num p.2],
      Json.arr (c.map thingToJson)]) =
      (match posOfJson (Json.arr [Json.num p.1, Json.num p.2]),
        Json.arr (c.map thingToJson) with
      | some p', Json.arr ts => (ts.mapM thingOfJson).map (fun c' => (p', c'))
      | _, _ => none) := rfl
  rw [h1, posOfJson_pair]
  show ((c.map thingToJson).mapM thingOfJson).map (fun c' => ((p.1, p.2), c')) = some (p, c)
  rw [mapM_thingOfJson_roundtrip]
  rfl

theorem mapM_entryOfJson_encode (heap : ThingId → Thing) :
    ∀ (s : Store),
      ((s.map (fun e => Json.arr [Json.arr [Json.num e.1.1, Json.num e.1.2],
        Json.arr (e.2.map (fun id => thingToJson (heap id)))])).mapM entryOfJson)
        = some (s.map (fun e => (e.1, e.2.map heap))) := by
  intro s
  induction s with
  | nil => rfl
  | cons e tl ih =>
    rw [List.map_cons, List.mapM_cons]
    have he : entryOfJson (Json.arr [Json.arr [Json.num e.1.1, Json.num e.1.2],
        Json.arr (e.2.map (fun id => thingToJson (heap id)))]) = some (e.1, e.2.map heap) := by
      have h2 : e.2.map (fun id => thingToJson (heap id)) = (e.2.map heap).map thingToJson := by
        rw [List.map_map]
        rfl
      rw [h2]
      exact entryOfJson_roundtrip e.1 (e.2.map heap)
    rw [he, ih]
    rfl

theorem storeGet_none_of_forall {p : Pos} {s : Store} (h : ∀ e ∈ s, e.1 ≠ p) :
    storeGet p s = none := by
  unfold storeGet
  rw [List.find?_eq_none.mpr]
  · rfl
  · intro e he
    simpa using h e he

theorem buildStore_go (entries : List (Pos × List ThingId)) :
    ∀ acc : Store, (storeKeys acc ++ storeKeys entries).Nodup →
      entries.foldl (fun s e => storeSet e.1 e.2 s) acc = acc ++ entries := by
  induction entries with
  | nil => intro acc _; simp
  | cons e tl ih =>
    intro acc hnd
    have hnotin : ∀ a ∈ acc, a.1 ≠ e.1 := by
      intro a ha hc
      have h1 : a.1 ∈ storeKeys acc := List.mem_map.mpr ⟨a, ha, rfl⟩
      have h2 : a.1 ∈ storeKeys (e :: tl) := by
        rw [hc]
        simp [storeKeys]
      exact (List.disjoint_of_nodup_append hnd) h1 h2
    rw [List.foldl_cons, storeSet_append_of_none (storeGet_none_of_forall hnotin)]
    have hkeq : storeKeys (acc ++ [e]) ++ storeKeys tl = storeKeys acc ++ storeKeys (e :: tl) := by
      simp [storeKeys]
    rw [ih (acc ++ [e]) (by rw [hkeq]; exact hnd)]
    simp

/-- Rebuilding a `KdTreeMap` from entry pairs with value-distinct keys gives
    back exactly those entries. -/
theorem buildStore_eq (entries : List (Pos × List ThingId))
    (hnd : (storeKeys entries).Nodup) : buildStore entries = entries := by
  unfold buildStore
  have h := buildStore_go entries [] (by simpa [storeKeys] using hnd)
  simpa using h

theorem numberEntries_keys :
    ∀ (es : List (Pos × List Thing)) (n : ThingId),
      storeKeys (numberEntries n es) = es.map (·.1) := by
  intro es
  induction es with
  | nil => intro n; rfl
  | cons e tl ih =>
    intro n
    cases e with
    | mk p c =>
      rw [numberEntries]
      simp only [storeKeys, List.map_cons]
      rw [show (List.map (fun x => x.1) (numberEntries (n + c.length) tl) : List Pos)
        = storeKeys (numberEntries (n + c.length) tl) from rfl, ih]

theorem map_range_getD {α : Type} (l : List α) (d : α) :
    (List.range l.length).map (fun j => l.getD j d) = l := by
  induction l with
  | nil => rfl
  | cons a t ih =>
    rw [List.length_cons, List.range_succ_eq_map]
    simp only [List.map_cons, List.map_map]
    refine congrArg₂ (· :: ·) rfl ?_
    have hcomp : ((fun j => (a :: t).getD j d) ∘ Nat.succ) = fun j => t.getD j d := by
      funext j
      rfl
    rw [hcomp, ih]

theorem numberEntries_getD (d : Thing) :
    ∀ (es : List (Pos × List Thing)) (pre : List Thing),
      (numberEntries pre.length es).map
        (fun e => e.2.map (fun i => (pre ++ (es.map (·.2)).flatten).getD i d))
        = es.map (·.2) := by
  intro es
  induction es with
  | nil => intro pre; rfl
  | cons e tl ih =>
    intro pre
    cases e with
    | mk p c =>
      rw [numberEntries, List.map_cons, List.map_cons]
      simp only [List.map_cons, List.flatten_cons]
      refine congrArg₂ (· :: ·) ?_ ?_
      · rw [List.map_map]
        refine (List.map_congr_left ?_).trans (map_range_getD c d)
        intro j hj
        have hj' : j < c.length := List.mem_range.mp hj
        show (pre ++ (c ++ (tl.map (·.2)).flatten)).getD (pre.length + j) d = c.getD j d
        rw [List.getD_append_right _ _ _ _ (Nat.le_add_right _ _)]
        have hsub : pre.length + j - pre.length = j := by omega
        rw [hsub]
        exact List.getD_append _ _ _ _ hj'
      · have hh := ih (pre ++ c)
        rw [List.length_append] at hh
        simp only [List.append_assoc] at hh
        exact hh

theorem deserializeState_serializeState (w : SimState) :
    deserializeState (serializeState w)
      = ((w.things.map (fun e =>
          Json.arr [Json.arr [Json.num e.1.1, Json.num e.1.2],
            Json.arr (e.2.map (fun id => thingToJson (w.heap id)))])).mapM entryOfJson).map
        (fun entries =>
          ⟨some (Json.num w.tick), buildStore (numberEntries 0 entries),
            fun i => ((entries.map (·.2)).flatten).getD i (water (0, 0))⟩) := rfl

/-- C2: the snapshot round-trip `deserializeState (serializeState w)`
    succeeds, reproduces the tick, and reproduces the exact multiset of
    (type, position, resources) records held in the store (identity of the
    things is not preserved — fresh ids are allocated — but the record
    multiset is). -/
theorem C2_roundtrip (w : SimState) (hnd : (storeKeys w.things).Nodup) :
    (deserializeState (serializeState w)).isSome = true ∧
    (deserializeState (serializeState w)).map RawSim.rawTick = some (some (Json.num w.tick)) ∧
    (deserializeState (serializeState w)).map (fun r => storeRecords r.things r.heap)
      = some (storeRecords w.things w.heap) := by
  have hd := deserializeState_serializeState w
  rw [mapM_entryOfJson_encode w.heap w.things, Option.map_some'] at hd
  rw [hd]
  refine ⟨rfl, rfl, ?_⟩
  set entries := w.things.map (fun e => (e.1, e.2.map w.heap)) with hE
  show some (storeRecords (buildStore (numberEntries 0 entries))
      (fun i => ((entries.map (·.2)).flatten).getD i (water (0, 0))))
    = some (storeRecords w.things w.heap)
  refine congrArg some ?_
  have hkeysE : (storeKeys (numberEntries 0 entries)).Nodup := by
    rw [numberEntries_keys]
    have hsame : entries.map (·.1) = storeKeys w.things := by
      rw [hE, List.map_map]
      rfl
    rw [hsame]
    exact hnd
  have hnum := numberEntries_getD (water (0, 0)) entries []
  simp only [List.length_nil, List.nil_append] at hnum
  unfold storeRecords
  refine congrArg (fun l : List Thing => (↑l : Multiset Thing)) ?_
  rw [buildStore_eq _ hkeysE]
  have hL : (storeIds (numberEntries 0 entries)).map
      (fun i => ((entries.map (·.2)).flatten).getD i (water (0, 0)))
      = ((numberEntries 0 entries).map
          (fun e => e.2.map (fun i => ((entries.map (·.2)).flatten).getD i (water (0, 0))))).flatten := by
    unfold storeIds
    rw [List.map_flatten, List.map_map]
    rfl
  have hR : (storeIds w.things).map w.heap = (entries.map (·.2)).flatten := by
    unfold storeIds
    rw [List.map_flatten, List.map_map, hE, List.map_map]
    rfl
  rw [hL, hnum, hR]

/-- A small world for the C2 witness: three things in two cells. -/
def exW2 : SimState :=
  ⟨42, [((0, 0), [0, 1]), ((1, 0), [2])],
    mkHeap [seed (0, 0), cloud (0, 0), water (1, 0)], 3⟩

/-- Witness for C2 at a concrete world. -/
theorem C2_roundtrip_witness :
    ((storeKeys exW2.things).Nodup) ∧
    ((deserializeState (serializeState exW2)).isSome = true ∧
    (deserializeState (serializeState exW2)).map RawSim.rawTick
      = some (some (Json.num exW2.tick)) ∧
    (deserializeState (serializeState exW2)).map (fun r => storeRecords r.things r.heap)
      = some (storeRecords exW2.things exW2.heap)) :=
  ⟨by decide, C2_roundtrip exW2 (by decide)⟩

/-- C7 amended: `deserializeState` rejects only inputs on which the
    JavaScript itself throws (an unparseable string — before this model —, a
    `null` root, or a `things` value that is not an entry array); a parseable
    snapshot whose `things` key is missing is accepted without any error: the
    store comes back empty and the `tick` field is copied through unchecked
    (an absent tick stays `undefined`).  There is no `MalformedSnapshot`
    validation anywhere. -/
theorem C7_missing_fields_accepted (fs : List (String × Json))
    (h : jLookup fs "things" = none) :
    deserializeState (Json.obj fs) = some ⟨jLookup fs "tick", [], fun _ => water (0, 0)⟩ := by
  have hred : deserializeState (Json.obj fs)
      = (match jLookup fs "things" with
        | none => some ⟨jLookup fs "tick", [], fun _ => water (0, 0)⟩
        | some (Json.arr es) =>
          (es.mapM entryOfJson).map (fun entries =>
            ⟨jLookup fs "tick", buildStore (numberEntries 0 entries),
              fun i => ((entries.map (·.2)).flatten).getD i (water (0, 0))⟩)
        | some _ => none) := rfl
  rw [hred, h]

/-- C7 counterexample: the parseable snapshot `{"tick": 7}` is missing the
    `things` field entirely, yet `deserializeState` does not fail — it
    silently returns a world with an empty store, coercing the bad data. -/
theorem C7_counterexample :
    (deserializeState (Json.obj [("tick", Json.num 7)])).isSome = true ∧
    (deserializeState (Json.obj [("tick", Json.num 7)])).map RawSim.rawTick
      = some (some (Json.num 7)) ∧
    (deserializeState (Json.obj [("tick", Json.num 7)])).map RawSim.things = some [] := by
  refine ⟨rfl, rfl, rfl⟩

/-- Witness for the amended C7 at the concrete snapshot `{"tick": 7}`. -/
theorem C7_missing_fields_accepted_witness :
    deserializeState (Json.obj [("tick", Json.num 7)])
      = some ⟨jLookup [("tick", Json.num 7)] "tick", [], fun _ => water (0, 0)⟩ :=
  C7_missing_fields_accepted [("tick", Json.num 7)] rfl

/-- A concrete RainCloud holding 2 Water, for the C3 witness. -/
def exW3 : SimState :=
  ⟨0, [((5, 5), [0])],
    mkHeap [⟨ThingType.RainCloud, (5, 5),
      fun rt => if rt = ThingType.Water then some 2 else none⟩], 1⟩

/-- Witness for C3 at a concrete RainCloud. -/
theorem C3_rain_bounded_witness :
    ((exW3.heap 0).resources ThingType.Water = some 2 →
      List.Perm (storeIds (rain 0 exW3).things)
        ([exW3.nextId, exW3.nextId + 1] ++ storeIds exW3.things) ∧
      (rain 0 exW3).heap exW3.nextId = water ((exW3.heap 0).pos) ∧
      (rain 0 exW3).heap (exW3.nextId + 1) = water ((exW3.heap 0).pos) ∧
      ((rain 0 exW3).heap 0).type = ThingType.Cloud ∧
      ((rain 0 exW3).heap 0).resources ThingType.Water = some 0 ∧
      (rain 0 exW3).nextId = exW3.nextId + 2) ∧
    ((exW3.heap 0).resources ThingType.Water = some 6 →
      List.Perm (storeIds (rain 0 exW3).things)
        ([exW3.nextId, exW3.nextId + 1, exW3.nextId + 2, exW3.nextId + 3] ++ storeIds exW3.things) ∧
      (∀ j, j < 4 → (rain 0 exW3).heap (exW3.nextId + j) = water ((exW3.heap 0).pos)) ∧
      ((rain 0 exW3).heap 0).type = ThingType.RainCloud ∧
      ((rain 0 exW3).heap 0).resources ThingType.Water = some 2 ∧
      (rain 0 exW3).nextId = exW3.nextId + 4) :=
  C3_rain_bounded exW3 0 (by decide) (by decide) rfl

/-- A concrete Cloud holding 6 Water at tick 3, for the C4 witness. -/
def exW4 : SimState :=
  ⟨3, [((0, -1), [0])],
    mkHeap [⟨ThingType.Cloud, (0, -1),
      fun rt => if rt = ThingType.Water then some 6 else none⟩], 1⟩

/-- Witness for C4 at a concrete Cloud (tick 3, so the gain fires: 6 + 5
    crosses the threshold). -/
theorem C4_condense_threshold_witness :
    getRes ((condenseWater 0 exW4).heap 0) ThingType.Water
      = getRes (exW4.heap 0) ThingType.Water + (if exW4.tick % 3 = 0 then 5 else 0) ∧
    (((condenseWater 0 exW4).heap 0).type = ThingType.RainCloud ↔
      getRes ((condenseWater 0 exW4).heap 0) ThingType.Water > 10) ∧
    (¬getRes ((condenseWater 0 exW4).heap 0) ThingType.Water > 10 →
      ((condenseWater 0 exW4).heap 0).type = ThingType.Cloud) ∧
    (∀ rt, rt ≠ ThingType.Water → ((condenseWater 0 exW4).heap 0).resources rt
      = (exW4.heap 0).resources rt) ∧
    (∀ i, i ≠ 0 → (condenseWater 0 exW4).heap i = exW4.heap i) ∧
    (condenseWater 0 exW4).things = exW4.things ∧ (condenseWater 0 exW4).tick = exW4.tick :=
  C4_condense_threshold exW4 0 rfl

/-- A concrete Seed next to one Water, for the C5 witness. -/
def exW5 : SimState :=
  ⟨0, [((1, 0), [0]), ((0, 0), [1])], mkHeap [water (1, 0), seed (0, 0)], 2⟩

/-- Witness for C5 at a concrete world (query result `[0]`, the Water). -/
theorem C5_absorb_conservation_witness :
    totalWater (absorbWater [0] 1 exW5) ≤ totalWater exW5 ∧
    (∀ wid, ([0] : List ThingId).find?
        (fun id => decide ((exW5.heap id).type = ThingType.Water)) = some wid →
      storeIds (absorbWater [0] 1 exW5).things = (storeIds exW5.things).erase wid ∧
      getRes ((absorbWater [0] 1 exW5).heap 1) ThingType.Water
        = getRes (exW5.heap 1) ThingType.Water + 1 ∧
      (∀ i, i ≠ 1 → (absorbWater [0] 1 exW5).heap i = exW5.heap i)) ∧
    (([0] : List ThingId).find?
        (fun id => decide ((exW5.heap id).type = ThingType.Water)) = none →
      absorbWater [0] 1 exW5 = exW5) :=
  C5_absorb_conservation exW5 [0] 1 ⟨by decide, by decide, by decide⟩ (by decide) (by decide)
    (by decide) (by decide)

/-- A minimal world for the C10 witness. -/
def exW10 : SimState := ⟨0, [], mkHeap [water (0, 0)], 1⟩

/-- Witness for C10 at a concrete world whose resource records hold no keys
    (so every stored count is vacuously non-negative). -/
theorem C10_controls_nonneg_witness :
    NonNegWorld (absorbWater [] 0 exW10) ∧ NonNegWorld (rootDown 0 exW10) ∧
    NonNegWorld (condenseWater 0 exW10) ∧ NonNegWorld (rain 0 exW10) :=
  C10_controls_nonneg exW10 0 []
    (fun id rt v hres => by
      have hnone : (exW10.heap id).resources rt = none := by
        cases id with
        | zero => rfl
        | succ n => rfl
      rw [hnone] at hres
      cases hres)
    (by decide)
